import Mathlib

/-!
Verification of the grid word-puzzle core (segment builder, expected-letter
mapper, correctness tracker, completion gate) and of the leaderboard
aggregator, as shallowly embedded from the TypeScript source
(src/unnamed/part_000).  Machine integers are modelled as Int/Nat; the grid
is modelled as a total function on Int coordinates (the source only ever
reads cells inside the N by N bounds, guarded by inBounds); a cell letter
(JS string of length 0 or 1) is an Option Char, with none standing for the
empty string; a missing optional answer and the empty answer string behave
identically in every code path embedded here (both fail the JS truthiness
tests), so answer is a plain String with the empty string for absent.
The ErrorSet of keys "r-c" is a Finset of coordinate pairs (the key encodes
exactly the pair).
-/

namespace Crossword

/-- Run direction (source: type Dir). -/
inductive Dir where
  | RIGHT
  | DOWN
deriving DecidableEq, Repr

/-- The six arrow variants (source: type Variant). -/
inductive Variant where
  | LEFT_CLUE_RIGHT
  | ABOVE_CLUE_DOWN
  | LEFT_CLUE_DOWN
  | ABOVE_CLUE_RIGHT
  | ABOVE_OF_CLUE_RIGHT
  | LEFT_OF_CLUE_DOWN
deriving DecidableEq, Repr

/-- Clue record (source: type Clue). answer is the empty string when absent. -/
structure Clue where
  text : String
  variant : Variant
  answer : String
deriving DecidableEq, Repr

/-- Cell kind (source: Cell.type). -/
inductive CellType where
  | empty
  | clue
deriving DecidableEq, Repr

/-- A grid cell (source: type Cell). letter none models the empty string. -/
structure Cell where
  type : CellType
  clue : Option Clue
  letter : Option Char
  solutionIndex : Option Int
  expected : Option Char
deriving DecidableEq, Repr

/-- Grid position: (row, column), Int because a variant-resolved start can be
at row or column -1 before the bounds check. -/
abbrev Pos := Int × Int

/-- A cell run governed by one clue (source: type Segment). -/
structure Segment where
  id : String
  cluePos : Pos
  dir : Dir
  start : Pos
  cells : List Pos
  clue : Clue
deriving DecidableEq, Repr

/-- Grid dimension (source: const N = 12). -/
def N : Nat := 12

/-- The grid, total on Int coordinates; only cells with inBounds coordinates
are ever read by the embedded code. -/
abbrev Grid := Int → Int → Cell

/-- Bounds test (source: inBounds). -/
def inBounds (r c : Int) : Bool :=
  decide (0 ≤ r) && decide (r < (N : Int)) && decide (0 ≤ c) && decide (c < (N : Int))

/-- One step in a direction (source: advance). -/
def advance (r c : Int) (dir : Dir) : Pos :=
  match dir with
  | .RIGHT => (r, c + 1)
  | .DOWN => (r + 1, c)

/-- advance on a packed position. -/
def advanceP (p : Pos) (dir : Dir) : Pos := advance p.1 p.2 dir

/-- Start cell and direction resolved from an arrow variant, relative to a
clue cell at (r, c) (source: the switch in buildSegments, lines 87-117). -/
def startDir (v : Variant) (r c : Int) : Pos × Dir :=
  match v with
  | .LEFT_CLUE_RIGHT => ((r, c + 1), .RIGHT)
  | .ABOVE_CLUE_DOWN => ((r + 1, c), .DOWN)
  | .LEFT_CLUE_DOWN => ((r, c + 1), .DOWN)
  | .ABOVE_CLUE_RIGHT => ((r + 1, c), .RIGHT)
  | .ABOVE_OF_CLUE_RIGHT => ((r - 1, c), .RIGHT)
  | .LEFT_OF_CLUE_DOWN => ((r, c - 1), .DOWN)

/-- The collection loop of buildSegments (source lines 122-131).  The while
loop advances one coordinate per iteration and every collected cell is in
bounds, so at most N iterations happen; fuel N (established sound by
walkLoop_spec below) makes the loop a total function. -/
def walkLoop (g : Grid) (dir : Dir) : Nat → Pos → List Pos
  | 0, _ => []
  | fuel + 1, cur =>
    if !(inBounds cur.1 cur.2) then []
    else if (g cur.1 cur.2).type = CellType.clue then []
    else
      cur ::
        (let nxt := advanceP cur dir
         if !(inBounds nxt.1 nxt.2) then []
         else if (g nxt.1 nxt.2).type = CellType.clue then []
         else walkLoop g dir fuel nxt)

/-- The segments contributed by the scan position (r, c): one when it is a
clue cell whose resolved start is in bounds, none otherwise (source:
buildSegments loop body, lines 77-134). -/
def segsAt (g : Grid) (r c : Int) : List Segment :=
  let cell := g r c
  if cell.type = CellType.clue then
    match cell.clue with
    | some clue =>
      let sd := startDir clue.variant r c
      if inBounds sd.1.1 sd.1.2 then
        [{ id := toString r ++ "-" ++ toString c
           cluePos := (r, c)
           dir := sd.2
           start := sd.1
           cells := walkLoop g sd.2 N sd.1
           clue := clue }]
      else []
    | none => []
  else []

/-- Segment builder: row-major scan of the grid (source: buildSegments). -/
def buildSegments (g : Grid) : List Segment :=
  (List.range N).flatMap fun r =>
    (List.range N).flatMap fun c => segsAt g (r : Int) (c : Int)

/-- The characters of an answer after whitespace removal and uppercasing
(source: mapExpected line 145; stored answers are already normalized to
single uppercase letters, where per-character uppercasing is exact). -/
def answerLetters (a : String) : List Char :=
  (a.toList.filter fun ch => !ch.isWhitespace).map Char.toUpper

/-- Overwrite the expected letter of one cell. -/
def setExpected (g : Grid) (p : Pos) (e : Option Char) : Grid :=
  fun r c => if r = p.1 ∧ c = p.2 then { g r c with expected := e } else g r c

/-- Reset every expected letter to null (source: mapExpected line 141). -/
def resetExpected (g : Grid) : Grid :=
  fun r c => { g r c with expected := none }

/-- One segment's assignment of answer characters onto its cells in order;
the zip stops at the shorter of run and answer, exactly like the source
loop bound i < cells.length and i < letters.length (source lines 143-150). -/
def assignSeg (g : Grid) (seg : Segment) : Grid :=
  if seg.clue.answer = "" then g
  else
    (seg.cells.zip (answerLetters seg.clue.answer)).foldl
      (fun g2 pc => setExpected g2 pc.1 (some pc.2)) g

/-- Expected-letter mapper (source: mapExpected). -/
def mapExpected (g : Grid) (segs : List Segment) : Grid :=
  segs.foldl assignSeg (resetExpected g)

/-- The set of cells currently flagged wrong; source keys the set by the
string r-c, which encodes exactly the coordinate pair. -/
abbrev ErrorSet := Finset Pos

/-- The four loop variables of the per-segment classification scan
(source lines 1117-1120). -/
structure ScanFlags where
  hasAnyExpected : Bool
  allFilled : Bool
  anyWrong : Bool
  anyExtra : Bool
deriving DecidableEq, Repr

/-- The classification scan over one segment's cells, with the early break
on the first unfilled expected cell (source lines 1123-1141). -/
def scanCells (g : Grid) : List Pos → ScanFlags → ScanFlags
  | [], f => f
  | p :: rest, f =>
    let cell := g p.1 p.2
    match cell.expected with
    | some e =>
      match cell.letter with
      | none => { f with hasAnyExpected := true, allFilled := false }
      | some l =>
        scanCells g rest
          { f with hasAnyExpected := true, anyWrong := f.anyWrong || decide (l ≠ e) }
    | none =>
      scanCells g rest { f with anyExtra := f.anyExtra || cell.letter.isSome }

/-- A cell is re-flagged when its letter is present and differs from a
non-null expectation, or when it is non-empty with a null expectation
(source lines 1161-1172). -/
def cellIsWrong (g : Grid) (p : Pos) : Bool :=
  let cell := g p.1 p.2
  match cell.expected with
  | some e =>
    match cell.letter with
    | some l => decide (l ≠ e)
    | none => false
  | none => cell.letter.isSome

/-- Processing of one segment inside the evaluation pass (source lines
1114-1173): skip answerless segments, skip segments without expectation or
not fully filled, otherwise clear the whole segment from the set and
re-add only the currently wrong cells. -/
def evalSeg (g : Grid) (es : ErrorSet) (seg : Segment) : ErrorSet :=
  if seg.clue.answer = "" then es
  else if !(scanCells g seg.cells ⟨false, true, false, false⟩).hasAnyExpected ||
          !(scanCells g seg.cells ⟨false, true, false, false⟩).allFilled then es
  else if !(scanCells g seg.cells ⟨false, true, false, false⟩).anyWrong &&
          !(scanCells g seg.cells ⟨false, true, false, false⟩).anyExtra then
    seg.cells.foldl (fun es2 p => es2.erase p) es
  else
    seg.cells.foldl (fun es2 p => if cellIsWrong g p then insert p es2 else es2)
      (seg.cells.foldl (fun es2 p => es2.erase p) es)

/-- One run of the correctness-tracker evaluation pass: the updater passed
to setIncorrectCells (source lines 1110-1177). -/
def setIncorrectCells (g : Grid) (segs : List Segment) (prev : ErrorSet) : ErrorSet :=
  segs.foldl (evalSeg g) prev

/-- Row-major list of all in-range grid coordinates. -/
def gridCells : List Pos :=
  (List.range N).flatMap fun r => (List.range N).map fun c => ((r : Int), (c : Int))

/-- The loop of allCorrect with its early false return on a mismatched
expected cell and its hasExpected accumulator (source lines 1187-1193). -/
def allCorrectGo (g : Grid) : List Pos → Bool → Bool
  | [], hasExpected => hasExpected
  | p :: rest, hasExpected =>
    match (g p.1 p.2).expected with
    | some e =>
      if (g p.1 p.2).letter ≠ some e then false else allCorrectGo g rest true
    | none => allCorrectGo g rest hasExpected

/-- Puzzle-complete gate (source: allCorrect, lines 1187-1193). -/
def allCorrect (g : Grid) : Bool :=
  allCorrectGo g gridCells false

/-- The loop of solvedSegIds for one segment, with early false return
(source lines 1198-1203): an expected cell must match, a null-expectation
cell must be empty; true only when some expectation exists. -/
def segSolvedGo (g : Grid) : List Pos → Bool → Bool
  | [], hasAny => hasAny
  | p :: rest, hasAny =>
    let cell := g p.1 p.2
    match cell.expected with
    | some e =>
      if cell.letter ≠ some e then false else segSolvedGo g rest true
    | none =>
      if cell.letter.isSome then false else segSolvedGo g rest hasAny

/-- Solved segment ids (source: solvedSegIds, lines 1195-1207). -/
def solvedSegIds (g : Grid) (segs : List Segment) : Finset String :=
  segs.foldl (fun ids s => if segSolvedGo g s.cells false then insert s.id ids else ids) ∅

/-- The win effect fires exactly when allCorrect rises (source lines
1222-1233). -/
def winTrigger (allC prevAllC : Bool) : Bool :=
  allC && !prevAllC

/-- The active cell cursor (source: activeSeg state, a segment and an index
into its cells). -/
structure ActiveSeg where
  seg : Segment
  index : Nat
deriving DecidableEq, Repr

/-- Overwrite the letter of one cell. -/
def setLetterAt (g : Grid) (p : Pos) (l : Option Char) : Grid :=
  fun r c => if r = p.1 ∧ c = p.2 then { g r c with letter := l } else g r c

/-- The Backspace branch of the keyboard handler (source lines 1243-1269):
clear the active cell when it holds a letter, else clear the previous cell
and step back; the touched cell is removed from the ErrorSet. -/
def handleBackspace (g : Grid) (es : ErrorSet) (a : ActiveSeg) :
    Grid × ErrorSet × ActiveSeg :=
  let target := a.seg.cells.getD a.index (0, 0)
  if (g target.1 target.2).letter.isSome then
    (setLetterAt g target none, es.erase target, a)
  else if 0 < a.index then
    let prevPos := a.seg.cells.getD (a.index - 1) (0, 0)
    (setLetterAt g prevPos none, es.erase prevPos, ⟨a.seg, a.index - 1⟩)
  else
    (g, es.erase target, a)

/-- The letter branch of the keyboard handler (source lines 1272-1293):
write the letter into the active cell, remove that cell from the ErrorSet,
advance the cursor when not at the last cell. -/
def handleLetter (g : Grid) (es : ErrorSet) (a : ActiveSeg) (L : Char) :
    Grid × ErrorSet × ActiveSeg :=
  let p := a.seg.cells.getD a.index (0, 0)
  (setLetterAt g p (some L), es.erase p,
   if a.index < a.seg.cells.length - 1 then ⟨a.seg, a.index + 1⟩ else a)

/-- One leaderboard row (source: type HighscoreRow); time_ms is a
non-negative integer number of milliseconds (0 is the reload sentinel). -/
structure HighscoreRow where
  id : Int
  nickname : String
  time_ms : Nat
  created_at : String
deriving DecidableEq, Repr

/-- The three leaderboard view modes (source: type HighscoreMode). -/
inductive HighscoreMode where
  | today
  | date
  | best
deriving DecidableEq, Repr

/-- Calendar-date filter: compare the first ten characters of created_at
(source line 454). -/
def byDate (row : HighscoreRow) (dateStr : String) : Bool :=
  row.created_at.take 10 == dateStr

/-- Normalized nickname key: trimmed, lowercased, with the fixed
placeholder for the empty result (source line 476); trim and per-character
lowercasing are modelled on the character list. -/
def nickKey (s : String) : String :=
  let t := String.mk
    (((s.data.dropWhile Char.isWhitespace).reverse.dropWhile
        Char.isWhitespace).reverse.map Char.toLower)
  if t = "" then "(leer)" else t

/-- One step of the best-per-nickname reduction over the Map (source lines
475-482); the association list keeps Map insertion order, and Map.set on an
existing key keeps its position. -/
def insertBest (m : List (String × HighscoreRow)) (row : HighscoreRow) :
    List (String × HighscoreRow) :=
  let key := nickKey row.nickname
  match m.lookup key with
  | none => m ++ [(key, row)]
  | some prev =>
    if row.time_ms < prev.time_ms || prev.time_ms == 0 then
      m.map fun kv => if kv.1 = key then (key, row) else kv
    else m

/-- Sort key of the comparator at lines 488-492: a zero time sorts as
positive infinity. -/
def sortKey (r : HighscoreRow) : WithTop Nat :=
  if r.time_ms = 0 then ⊤ else (r.time_ms : WithTop Nat)

/-- Comparator order of the leaderboard sort. -/
def hsLE (a b : HighscoreRow) : Prop := sortKey a ≤ sortKey b

theorem hsLE_iff (a b : HighscoreRow) :
    hsLE a b ↔ (b.time_ms = 0 ∨ (a.time_ms ≠ 0 ∧ a.time_ms ≤ b.time_ms)) := by
  unfold hsLE sortKey
  by_cases ha : a.time_ms = 0 <;> by_cases hb : b.time_ms = 0 <;>
    simp [ha, hb, top_le_iff, WithTop.coe_le_coe]

instance : DecidableRel hsLE := fun a b => decidable_of_iff _ (hsLE_iff a b).symm

instance : IsTotal HighscoreRow hsLE := ⟨fun a b => le_total (sortKey a) (sortKey b)⟩

instance : IsTrans HighscoreRow hsLE := ⟨fun _ _ _ h1 h2 => le_trans h1 h2⟩

/-- Ascending stable sort by the comparator (models Array.prototype.sort
with the comparator of lines 488-492). -/
def sortByTime (l : List HighscoreRow) : List HighscoreRow :=
  l.insertionSort hsLE

/-- The fully filtered leaderboard list, before pagination (source:
filteredHighscores, lines 451-494). -/
def filteredHighscores (rows : List HighscoreRow) (mode : HighscoreMode)
    (highscoreDate todayStr : String) : List HighscoreRow :=
  match mode with
  | .today => sortByTime (rows.filter fun r => byDate r todayStr)
  | .date => sortByTime (rows.filter fun r => byDate r highscoreDate)
  | .best =>
    let dayRows := (rows.filter fun r => byDate r highscoreDate).filter
      fun r => decide (0 < r.time_ms)
    sortByTime ((dayRows.foldl insertBest []).map Prod.snd)

/-- Fixed page size (source line 247). -/
def PAGE_SIZE : Nat := 10

/-- Total page count, at least one (source line 497); Nat ceiling division
models Math.ceil on these non-negative integers. -/
def totalPages (len : Nat) : Nat :=
  max 1 ((len + PAGE_SIZE - 1) / PAGE_SIZE)

/-- The effective page index (source line 498). -/
def currentPageOf (hsPage len : Nat) : Nat :=
  min hsPage (totalPages len - 1)

/-- The visible page slice (source lines 500-507); slice a b is modelled by
drop a then take (b - a). -/
def pageHighscores (l : List HighscoreRow) (hsPage : Nat) : List HighscoreRow :=
  (l.drop (currentPageOf hsPage l.length * PAGE_SIZE)).take PAGE_SIZE

/-! ### Walk characterization -/

/-- The k-th cell of the ray from p in direction dir. -/
def ray (p : Pos) (dir : Dir) : Nat → Pos
  | 0 => p
  | k + 1 => ray (advanceP p dir) dir k

/-- The coordinate that a walk in direction dir increases. -/
def dirCoord (p : Pos) (dir : Dir) : Int :=
  match dir with
  | .RIGHT => p.2
  | .DOWN => p.1

/-- A walkable cell: in bounds and not a clue cell. -/
def goodB (g : Grid) (p : Pos) : Bool :=
  inBounds p.1 p.2 && !(decide ((g p.1 p.2).type = CellType.clue))

theorem inBounds_iff {r c : Int} :
    inBounds r c = true ↔ 0 ≤ r ∧ r < (N : Int) ∧ 0 ≤ c ∧ c < (N : Int) := by
  simp [inBounds, and_assoc]

theorem dirCoord_advance (p : Pos) (dir : Dir) :
    dirCoord (advanceP p dir) dir = dirCoord p dir + 1 := by
  cases dir <;> rfl

theorem goodB_false_of_ge {g : Grid} {p : Pos} {dir : Dir}
    (h : (N : Int) ≤ dirCoord p dir) : goodB g p = false := by
  have hb : inBounds p.1 p.2 = false := by
    cases hib : inBounds p.1 p.2
    · rfl
    · exfalso
      rcases inBounds_iff.mp hib with ⟨_, h1, _, h2⟩
      cases dir <;> simp [dirCoord] at h <;> omega
  simp [goodB, hb]

theorem goodB_iff {g : Grid} {p : Pos} :
    goodB g p = true ↔ inBounds p.1 p.2 = true ∧ ¬(g p.1 p.2).type = CellType.clue := by
  simp [goodB]

theorem goodB_coord_lt {g : Grid} {p : Pos} {dir : Dir}
    (h : goodB g p = true) : dirCoord p dir < (N : Int) := by
  rcases goodB_iff.mp h with ⟨hib, -⟩
  rcases inBounds_iff.mp hib with ⟨_, h1, _, h2⟩
  cases dir <;> simpa [dirCoord]

theorem walkLoop_nil_of_not_good {g : Grid} {dir : Dir} {fuel : Nat} {cur : Pos}
    (h : goodB g cur = false) : walkLoop g dir (fuel + 1) cur = [] := by
  by_cases hb : inBounds cur.1 cur.2
  · have hc : (g cur.1 cur.2).type = CellType.clue := by
      simpa [goodB, hb] using h
    simp [walkLoop, hb, hc]
  · simp [walkLoop, hb]

theorem walkLoop_cons_of_good {g : Grid} {dir : Dir} {fuel : Nat} {cur : Pos}
    (h : goodB g cur = true) :
    walkLoop g dir (fuel + 1) cur =
      cur :: (if goodB g (advanceP cur dir) = true
              then walkLoop g dir fuel (advanceP cur dir) else []) := by
  rcases goodB_iff.mp h with ⟨hb, hc⟩
  by_cases hg : goodB g (advanceP cur dir) = true
  · rcases goodB_iff.mp hg with ⟨hb2, hc2⟩
    simp [walkLoop, hb, hc, hb2, hc2, hg]
  · rw [if_neg hg]
    by_cases hb2 : inBounds (advanceP cur dir).1 (advanceP cur dir).2
    · have hc2 : (g (advanceP cur dir).1 (advanceP cur dir).2).type = CellType.clue := by
        by_contra hcon
        exact hg (goodB_iff.mpr ⟨hb2, hcon⟩)
      simp [walkLoop, hb, hc, hb2, hc2]
    · simp [walkLoop, hb, hc, hb2]

/-- Full characterization of the collection loop: with enough fuel its
result is exactly the maximal run of walkable ray cells from the start,
each element being the corresponding ray cell, and the next ray cell after
the run being out of bounds or a clue cell. -/
theorem walkLoop_spec (g : Grid) (dir : Dir) :
    ∀ (fuel : Nat) (cur : Pos), (N : Int) - dirCoord cur dir ≤ (fuel : Int) →
      (∀ i, i < (walkLoop g dir fuel cur).length →
        (walkLoop g dir fuel cur).get? i = some (ray cur dir i) ∧
        goodB g (ray cur dir i) = true) ∧
      goodB g (ray cur dir (walkLoop g dir fuel cur).length) = false := by
  intro fuel
  induction fuel with
  | zero =>
    intro cur hfuel
    refine ⟨fun i hi => absurd hi (by simp [walkLoop]), ?_⟩
    have : (N : Int) ≤ dirCoord cur dir := by omega
    simpa [walkLoop, ray] using goodB_false_of_ge (g := g) this
  | succ fuel ih =>
    intro cur hfuel
    by_cases hcur : goodB g cur = true
    · rw [walkLoop_cons_of_good hcur]
      by_cases hnxt : goodB g (advanceP cur dir) = true
      · rw [if_pos hnxt]
        have hfuel2 : (N : Int) - dirCoord (advanceP cur dir) dir ≤ (fuel : Int) := by
          rw [dirCoord_advance]
          push_cast at hfuel ⊢
          omega
        rcases ih (advanceP cur dir) hfuel2 with ⟨h1, h2⟩
        constructor
        · intro i hi
          match i with
          | 0 => exact ⟨rfl, hcur⟩
          | Nat.succ j =>
            have hj : j < (walkLoop g dir fuel (advanceP cur dir)).length := by
              simpa using hi
            rcases h1 j hj with ⟨hg1, hg2⟩
            exact ⟨by simpa [ray] using hg1, by simpa [ray] using hg2⟩
        · simpa [ray] using h2
      · rw [if_neg hnxt]
        constructor
        · intro i hi
          match i with
          | 0 => exact ⟨rfl, hcur⟩
          | Nat.succ j => simp at hi
        · simpa [ray] using Bool.not_eq_true _ ▸ hnxt
    · have hcur2 : goodB g cur = false := Bool.not_eq_true _ ▸ hcur
      rw [walkLoop_nil_of_not_good hcur2]
      exact ⟨fun i hi => absurd hi (by simp), by simpa [ray] using hcur2⟩

/-! ### Segment builder: emission and provenance -/

/-- The record emitted for a clue cl found at (r, c). -/
def mkSegment (g : Grid) (r c : Int) (cl : Clue) : Segment :=
  { id := toString r ++ "-" ++ toString c
    cluePos := (r, c)
    dir := (startDir cl.variant r c).2
    start := (startDir cl.variant r c).1
    cells := walkLoop g (startDir cl.variant r c).2 N (startDir cl.variant r c).1
    clue := cl }

theorem segsAt_eq_of_clue {g : Grid} {r c : Int} {cl : Clue}
    (ht : (g r c).type = CellType.clue) (hcl : (g r c).clue = some cl)
    (hib : inBounds (startDir cl.variant r c).1.1 (startDir cl.variant r c).1.2 = true) :
    segsAt g r c = [mkSegment g r c cl] := by
  simp [segsAt, ht, hcl, hib, mkSegment]

theorem of_mem_segsAt {g : Grid} {r c : Int} {s : Segment} (h : s ∈ segsAt g r c) :
    (g r c).type = CellType.clue ∧ (g r c).clue = some s.clue ∧
    s.cluePos = (r, c) ∧ s.start = (startDir s.clue.variant r c).1 ∧
    s.dir = (startDir s.clue.variant r c).2 ∧
    s.cells = walkLoop g s.dir N s.start ∧
    inBounds s.start.1 s.start.2 = true := by
  unfold segsAt at h
  by_cases ht : (g r c).type = CellType.clue
  · rw [if_pos ht] at h
    cases hcl : (g r c).clue with
    | none => rw [hcl] at h; simp at h
    | some cl =>
      rw [hcl] at h
      by_cases hib :
          inBounds (startDir cl.variant r c).1.1 (startDir cl.variant r c).1.2 = true
      · simp only [hib, if_true, List.mem_singleton] at h
        subst h
        exact ⟨ht, by simp [hcl], rfl, rfl, rfl, rfl, hib⟩
      · simp [hib] at h
  · rw [if_neg ht] at h
    simp at h

theorem mem_buildSegments {g : Grid} {s : Segment} :
    s ∈ buildSegments g ↔
      ∃ r, r < N ∧ ∃ c, c < N ∧ s ∈ segsAt g (r : Int) (c : Int) := by
  simp [buildSegments, List.mem_flatMap, List.mem_range]

/-- In-bounds start with the clue: emission condition for the scan position
(r, c) (source lines 78 and 120). -/
def emitCondB (g : Grid) (r c : Int) : Bool :=
  decide ((g r c).type = CellType.clue) &&
  (match (g r c).clue with
   | some cl => inBounds (startDir cl.variant r c).1.1 (startDir cl.variant r c).1.2
   | none => false)

theorem segsAt_length (g : Grid) (r c : Int) :
    (segsAt g r c).length = if emitCondB g r c then 1 else 0 := by
  by_cases ht : (g r c).type = CellType.clue
  · cases hcl : (g r c).clue with
    | none => simp [segsAt, emitCondB, ht, hcl]
    | some cl =>
      by_cases hib :
          inBounds (startDir cl.variant r c).1.1 (startDir cl.variant r c).1.2 = true
      · simp [segsAt, emitCondB, ht, hcl, hib]
      · simp only [Bool.not_eq_true] at hib
        simp [segsAt, emitCondB, ht, hcl, hib]
  · simp [segsAt, emitCondB, ht]

theorem countP_flatMap {α β : Type} (l : List α) (f : α → List β) (p : β → Bool) :
    ((l.flatMap f).countP p) = (l.map fun a => (f a).countP p).sum := by
  induction l with
  | nil => rfl
  | cons a t ih => simp [List.countP_append, ih]

theorem sum_map_eq_of_single {l : List Nat} (hl : l.Nodup) {r : Nat} (hr : r ∈ l)
    (f : Nat → Nat) (h0 : ∀ a ∈ l, a ≠ r → f a = 0) : (l.map f).sum = f r := by
  induction l with
  | nil => cases hr
  | cons a t ih =>
    rcases List.nodup_cons.mp hl with ⟨ha, ht⟩
    rcases List.mem_cons.mp hr with rfl | hrt
    · have hz : (t.map f).sum = 0 := by
        apply List.sum_eq_zero
        intro x hx
        rcases List.mem_map.mp hx with ⟨b, hb, rfl⟩
        exact h0 b (List.mem_cons_of_mem _ hb) (fun hbr => ha (hbr ▸ hb))
      simp [hz]
    · have har : a ≠ r := fun har => ha (har ▸ hrt)
      have hfa : f a = 0 := h0 a (List.mem_cons_self _ _) har
      simp [hfa, ih ht hrt fun b hb => h0 b (List.mem_cons_of_mem _ hb)]

theorem countP_segsAt (g : Grid) (r c r2 c2 : Int) :
    (segsAt g r2 c2).countP (fun s => decide (s.cluePos = (r, c))) =
      if (r2, c2) = (r, c) then (segsAt g r2 c2).length else 0 := by
  by_cases h : (r2, c2) = (r, c)
  · rw [if_pos h]
    apply List.countP_eq_length.mpr
    intro s hs
    have := (of_mem_segsAt hs).2.2.1
    simp [this, ← h]
  · rw [if_neg h]
    apply List.countP_eq_zero.mpr
    intro s hs
    have := (of_mem_segsAt hs).2.2.1
    simp [this, h]

/-- The segment count of the builder at a given clue position: one when the
cell is a clue with an in-bounds resolved start, zero otherwise. -/
theorem buildSegments_countP (g : Grid) (r c : Nat) (hr : r < N) (hc : c < N) :
    ((buildSegments g).countP fun s => decide (s.cluePos = ((r : Int), (c : Int)))) =
      if emitCondB g r c then 1 else 0 := by
  have hcol : ∀ r2 : Nat,
      (((List.range N).flatMap fun c2 : Nat => segsAt g (r2 : Int) (c2 : Int)).countP
        fun s => decide (s.cluePos = ((r : Int), (c : Int)))) =
      if r2 = r then (if emitCondB g r c then 1 else 0) else 0 := by
    intro r2
    rw [countP_flatMap]
    by_cases hre : r2 = r
    · subst hre
      rw [if_pos rfl,
        sum_map_eq_of_single (List.nodup_range N) (List.mem_range.mpr hc)]
      · rw [countP_segsAt, if_pos rfl, segsAt_length]
      · intro c2 _ hne
        rw [countP_segsAt, if_neg ?_]
        simp only [Prod.mk.injEq, not_and]
        intro _ hcc
        exact hne (by exact_mod_cast hcc)
    · rw [if_neg hre]
      apply List.sum_eq_zero
      intro x hx
      rcases List.mem_map.mp hx with ⟨c2, _, rfl⟩
      rw [countP_segsAt, if_neg ?_]
      simp only [Prod.mk.injEq, not_and]
      intro hrr
      exact absurd (by exact_mod_cast hrr) hre
  rw [buildSegments, countP_flatMap]
  rw [sum_map_eq_of_single (List.nodup_range N) (List.mem_range.mpr hr)]
  · rw [hcol, if_pos rfl]
  · intro r2 _ hne
    rw [hcol, if_neg hne]

/-! ### Correctness tracker: scan and pass characterization -/

/-- The cell has a non-null expectation. -/
def expectedB (g : Grid) (p : Pos) : Bool := ((g p.1 p.2).expected).isSome

/-- The cell is filled whenever it has a non-null expectation. -/
def filledB (g : Grid) (p : Pos) : Bool :=
  !((g p.1 p.2).expected).isSome || ((g p.1 p.2).letter).isSome

theorem scan_hasAnyExpected (g : Grid) :
    ∀ (cells : List Pos) (f : ScanFlags),
      (scanCells g cells f).hasAnyExpected = (f.hasAnyExpected || cells.any (expectedB g)) := by
  intro cells
  induction cells with
  | nil => simp [scanCells]
  | cons p rest ih =>
    intro f
    cases he : (g p.1 p.2).expected with
    | some e =>
      cases hl : (g p.1 p.2).letter with
      | none => simp [scanCells, he, hl, expectedB]
      | some l => simp [scanCells, he, hl, expectedB, ih]
    | none => simp [scanCells, he, expectedB, ih]

theorem scan_allFilled (g : Grid) :
    ∀ (cells : List Pos) (f : ScanFlags),
      (scanCells g cells f).allFilled = (f.allFilled && cells.all (filledB g)) := by
  intro cells
  induction cells with
  | nil => simp [scanCells]
  | cons p rest ih =>
    intro f
    cases he : (g p.1 p.2).expected with
    | some e =>
      cases hl : (g p.1 p.2).letter with
      | none => simp [scanCells, he, hl, filledB]
      | some l => simp [scanCells, he, hl, filledB, ih]
    | none => simp [scanCells, he, filledB, ih]

theorem scan_wrong_extra (g : Grid) :
    ∀ (cells : List Pos) (f : ScanFlags), cells.all (filledB g) = true →
      ((scanCells g cells f).anyWrong || (scanCells g cells f).anyExtra) =
        ((f.anyWrong || f.anyExtra) || cells.any (cellIsWrong g)) := by
  intro cells
  induction cells with
  | nil => simp [scanCells]
  | cons p rest ih =>
    intro f hall
    rcases List.all_eq_true.mp hall with -
    have hp : filledB g p = true := by
      exact List.all_eq_true.mp hall p (List.mem_cons_self _ _)
    have hrest : rest.all (filledB g) = true := by
      apply List.all_eq_true.mpr
      intro x hx
      exact List.all_eq_true.mp hall x (List.mem_cons_of_mem _ hx)
    cases he : (g p.1 p.2).expected with
    | some e =>
      cases hl : (g p.1 p.2).letter with
      | none => simp [filledB, he, hl] at hp
      | some l =>
        have hw : cellIsWrong g p = decide (l ≠ e) := by simp [cellIsWrong, he, hl]
        rw [scanCells]
        simp only [he, hl]
        rw [ih _ hrest]
        simp only [hw, List.any_cons]
        cases f.anyWrong <;> cases f.anyExtra <;> cases (decide (l ≠ e)) <;> simp
    | none =>
      have hw : cellIsWrong g p = ((g p.1 p.2).letter).isSome := by
        simp [cellIsWrong, he]
      rw [scanCells]
      simp only [he]
      rw [ih _ hrest]
      simp only [hw, List.any_cons]
      cases f.anyWrong <;> cases f.anyExtra <;> cases hls : ((g p.1 p.2).letter).isSome <;> simp

/-- The guard of the per-segment evaluation (source line 1145, negated). -/
def segGuard (g : Grid) (seg : Segment) : Bool :=
  (scanCells g seg.cells ⟨false, true, false, false⟩).hasAnyExpected &&
  (scanCells g seg.cells ⟨false, true, false, false⟩).allFilled

/-- The segment has at least one cell with a non-null expected letter
(claim-side phrasing). -/
def segHasExpectation (g : Grid) (seg : Segment) : Prop :=
  ∃ p ∈ seg.cells, (g p.1 p.2).expected ≠ none

/-- Every cell of the segment with a non-null expected letter holds a
letter (claim-side phrasing). -/
def segFullyFilled (g : Grid) (seg : Segment) : Prop :=
  ∀ p ∈ seg.cells, (g p.1 p.2).expected ≠ none → (g p.1 p.2).letter ≠ none

instance (g : Grid) (seg : Segment) : Decidable (segHasExpectation g seg) :=
  inferInstanceAs (Decidable (∃ p ∈ seg.cells, _ ≠ none))

instance (g : Grid) (seg : Segment) : Decidable (segFullyFilled g seg) :=
  inferInstanceAs (Decidable (∀ p ∈ seg.cells, _ ≠ none → _ ≠ none))

theorem segGuard_iff {g : Grid} {seg : Segment} :
    segGuard g seg = true ↔ segHasExpectation g seg ∧ segFullyFilled g seg := by
  rw [segGuard, Bool.and_eq_true, scan_hasAnyExpected, scan_allFilled]
  simp only [Bool.false_or, Bool.true_and]
  constructor
  · rintro ⟨h1, h2⟩
    constructor
    · rcases List.any_eq_true.mp h1 with ⟨p, hp, he⟩
      exact ⟨p, hp, by simpa [expectedB, Option.isSome_iff_ne_none] using he⟩
    · intro p hp he
      have := List.all_eq_true.mp h2 p hp
      simp only [filledB, Bool.or_eq_true, Bool.not_eq_true'] at this
      rcases this with h | h
      · exact absurd (Option.not_isSome_iff_eq_none.mp (by simp [h])) he
      · exact Option.isSome_iff_ne_none.mp h
  · rintro ⟨⟨p, hp, he⟩, h2⟩
    constructor
    · exact List.any_eq_true.mpr ⟨p, hp, by simpa [expectedB, Option.isSome_iff_ne_none]⟩
    · apply List.all_eq_true.mpr
      intro q hq
      simp only [filledB, Bool.or_eq_true, Bool.not_eq_true']
      by_cases heq : (g q.1 q.2).expected = none
      · exact Or.inl (by simp [heq])
      · exact Or.inr (Option.isSome_iff_ne_none.mpr (h2 q hq heq))

theorem evalSeg_eq_of_skip {g : Grid} {seg : Segment} {es : ErrorSet}
    (h : seg.clue.answer = "" ∨ segGuard g seg = false) :
    evalSeg g es seg = es := by
  by_cases ha : seg.clue.answer = ""
  · simp [evalSeg, ha]
  · rcases h with h | h
    · exact absurd h ha
    · rw [evalSeg, if_neg ha, if_pos]
      rw [segGuard, Bool.and_eq_false_iff] at h
      rcases h with h | h <;> simp [h]

theorem mem_foldl_erase (cells : List Pos) (es : ErrorSet) (p : Pos) :
    p ∈ cells.foldl (fun es2 q => es2.erase q) es ↔ p ∈ es ∧ p ∉ cells := by
  induction cells generalizing es with
  | nil => simp
  | cons q rest ih =>
    rw [List.foldl_cons, ih]
    simp only [Finset.mem_erase, List.mem_cons]
    tauto

theorem mem_foldl_insertWrong (g : Grid) (cells : List Pos) (es : ErrorSet) (p : Pos) :
    p ∈ cells.foldl (fun es2 q => if cellIsWrong g q then insert q es2 else es2) es ↔
      p ∈ es ∨ (p ∈ cells ∧ cellIsWrong g p = true) := by
  induction cells generalizing es with
  | nil => simp
  | cons q rest ih =>
    rw [List.foldl_cons, ih]
    by_cases hw : cellIsWrong g q = true
    · by_cases hpq : p = q
      · subst hpq
        simp [hw]
      · simp only [hw, if_pos, Finset.mem_insert, List.mem_cons]
        tauto
    · by_cases hpq : p = q
      · subst hpq
        simp only [hw, if_neg, List.mem_cons, Bool.not_eq_true]
        tauto
      · simp only [hw, if_neg, List.mem_cons, Bool.not_eq_true]
        tauto

theorem evalSeg_mem_of_guard {g : Grid} {seg : Segment} {es : ErrorSet}
    (ha : seg.clue.answer ≠ "") (hg : segGuard g seg = true) (p : Pos) :
    p ∈ evalSeg g es seg ↔
      (if p ∈ seg.cells then cellIsWrong g p = true else p ∈ es) := by
  have hgand : (scanCells g seg.cells ⟨false, true, false, false⟩).hasAnyExpected = true ∧
      (scanCells g seg.cells ⟨false, true, false, false⟩).allFilled = true := by
    simpa [segGuard] using hg
  have hall : seg.cells.all (filledB g) = true := by
    have := hgand.2
    rw [scan_allFilled] at this
    simpa using this
  rw [evalSeg, if_neg ha, if_neg (by simp [hgand.1, hgand.2])]
  by_cases hok : (!(scanCells g seg.cells ⟨false, true, false, false⟩).anyWrong &&
      !(scanCells g seg.cells ⟨false, true, false, false⟩).anyExtra) = true
  · rw [if_pos hok, mem_foldl_erase]
    have hzero : seg.cells.any (cellIsWrong g) = false := by
      have h2 := scan_wrong_extra g seg.cells ⟨false, true, false, false⟩ hall
      simp only [Bool.and_eq_true, Bool.not_eq_true'] at hok
      rw [hok.1, hok.2] at h2
      simpa using h2.symm
    by_cases hp : p ∈ seg.cells
    · have : cellIsWrong g p = false := by
        by_contra hcon
        have : cellIsWrong g p = true := by
          cases hcc : cellIsWrong g p
          · exact absurd hcc hcon
          · rfl
        have := List.any_eq_true.mpr ⟨p, hp, this⟩
        rw [hzero] at this
        cases this
      simp [hp, this]
    · simp [hp]
  · rw [if_neg hok, mem_foldl_insertWrong, mem_foldl_erase]
    by_cases hp : p ∈ seg.cells
    · simp only [hp, if_pos]
      tauto
    · simp only [hp, if_neg]
      tauto

theorem evalSeg_frame {g : Grid} {seg : Segment} {es : ErrorSet} {p : Pos}
    (h : seg.clue.answer = "" ∨ segGuard g seg = false ∨ p ∉ seg.cells) :
    (p ∈ evalSeg g es seg ↔ p ∈ es) := by
  by_cases ha : seg.clue.answer = ""
  · rw [evalSeg_eq_of_skip (Or.inl ha)]
  · by_cases hg : segGuard g seg = true
    · have hp : p ∉ seg.cells := by
        rcases h with h | h | h
        · exact absurd h ha
        · rw [hg] at h; cases h
        · exact h
      rw [evalSeg_mem_of_guard ha hg, if_neg hp]
    · rw [evalSeg_eq_of_skip (Or.inr (Bool.not_eq_true _ ▸ hg))]

theorem evalSeg_preserve {g : Grid} {seg : Segment} {es : ErrorSet} {p : Pos}
    (hp : p ∈ es ↔ cellIsWrong g p = true) :
    (p ∈ evalSeg g es seg ↔ cellIsWrong g p = true) := by
  by_cases ha : seg.clue.answer = ""
  · rw [evalSeg_eq_of_skip (Or.inl ha)]; exact hp
  · by_cases hg : segGuard g seg = true
    · rw [evalSeg_mem_of_guard ha hg]
      by_cases hpc : p ∈ seg.cells
      · simp [hpc]
      · simpa [hpc] using hp
    · rw [evalSeg_eq_of_skip (Or.inr (Bool.not_eq_true _ ▸ hg))]; exact hp

theorem setIncorrectCells_frame {g : Grid} (segs : List Segment) (prev : ErrorSet) {p : Pos}
    (h : ∀ s ∈ segs, s.clue.answer ≠ "" → segGuard g s = true → p ∉ s.cells) :
    (p ∈ setIncorrectCells g segs prev ↔ p ∈ prev) := by
  induction segs generalizing prev with
  | nil => simp [setIncorrectCells]
  | cons s rest ih =>
    have hstep : setIncorrectCells g (s :: rest) prev =
        setIncorrectCells g rest (evalSeg g prev s) := rfl
    rw [hstep, ih (evalSeg g prev s) (fun s2 hs2 => h s2 (List.mem_cons_of_mem _ hs2))]
    apply evalSeg_frame
    by_cases ha : s.clue.answer = ""
    · exact Or.inl ha
    · by_cases hg : segGuard g s = true
      · exact Or.inr (Or.inr (h s (List.mem_cons_self _ _) ha hg))
      · exact Or.inr (Or.inl (Bool.not_eq_true _ ▸ hg))

theorem setIncorrectCells_preserve {g : Grid} (segs : List Segment) (es : ErrorSet) {p : Pos}
    (hp : p ∈ es ↔ cellIsWrong g p = true) :
    (p ∈ segs.foldl (evalSeg g) es ↔ cellIsWrong g p = true) := by
  induction segs generalizing es with
  | nil => simpa using hp
  | cons s rest ih =>
    rw [List.foldl_cons]
    exact ih _ (evalSeg_preserve hp)

/-- After the pass, membership at a cell of a processed (answered, guarded)
segment equals current wrongness of that cell, whatever the prior set. -/
theorem setIncorrectCells_mem_of_processed {g : Grid} {segs : List Segment}
    {seg : Segment} (hmem : seg ∈ segs) (ha : seg.clue.answer ≠ "")
    (hg : segGuard g seg = true) (prev : ErrorSet) {p : Pos} (hp : p ∈ seg.cells) :
    (p ∈ setIncorrectCells g segs prev ↔ cellIsWrong g p = true) := by
  obtain ⟨l1, l2, rfl⟩ := List.append_of_mem hmem
  rw [setIncorrectCells, List.foldl_append, List.foldl_cons]
  apply setIncorrectCells_preserve
  rw [evalSeg_mem_of_guard ha hg, if_pos hp]

/-! ### Completion gate characterization -/

/-- The cell matches its expectation when one exists. -/
def matchB (g : Grid) (p : Pos) : Bool :=
  match (g p.1 p.2).expected with
  | some e => (g p.1 p.2).letter == some e
  | none => true

theorem allCorrectGo_eq (g : Grid) :
    ∀ (cells : List Pos) (acc : Bool),
      allCorrectGo g cells acc =
        ((acc || cells.any (expectedB g)) && cells.all (matchB g)) := by
  intro cells
  induction cells with
  | nil => simp [allCorrectGo]
  | cons p rest ih =>
    intro acc
    cases he : (g p.1 p.2).expected with
    | some e =>
      by_cases hl : (g p.1 p.2).letter = some e
      · simp [allCorrectGo, he, hl, ih, expectedB, matchB]
      · simp [allCorrectGo, he, hl, expectedB, matchB]
    | none => simp [allCorrectGo, he, ih, expectedB, matchB]

theorem allCorrect_iff (g : Grid) :
    allCorrect g = true ↔
      ((∃ p ∈ gridCells, (g p.1 p.2).expected ≠ none) ∧
       ∀ p ∈ gridCells, ∀ e, (g p.1 p.2).expected = some e → (g p.1 p.2).letter = some e) := by
  rw [allCorrect, allCorrectGo_eq, Bool.and_eq_true, Bool.false_or]
  constructor
  · rintro ⟨h1, h2⟩
    constructor
    · rcases List.any_eq_true.mp h1 with ⟨p, hp, he⟩
      exact ⟨p, hp, by simpa [expectedB, Option.isSome_iff_ne_none] using he⟩
    · intro p hp e he
      have := List.all_eq_true.mp h2 p hp
      simp only [matchB, he] at this
      simpa using this
  · rintro ⟨⟨p, hp, he⟩, h2⟩
    constructor
    · exact List.any_eq_true.mpr ⟨p, hp, by simpa [expectedB, Option.isSome_iff_ne_none]⟩
    · apply List.all_eq_true.mpr
      intro q hq
      cases he2 : (g q.1 q.2).expected with
      | some e => simp [matchB, he2, h2 q hq e he2]
      | none => simp [matchB, he2]

/-! ### Expected-letter mapper characterization -/

/-- Option override: a new assignment wins over an older value. -/
def orO (a b : Option Char) : Option Char :=
  match a with
  | some x => some x
  | none => b

theorem orO_assoc (a b c : Option Char) : orO (orO a b) c = orO a (orO b c) := by
  cases a <;> rfl

theorem orO_none_right (a : Option Char) : orO a none = a := by
  cases a <;> rfl

/-- The letter (if any) this segment assigns to the cell p: the last write
of the assignment loop that hits p, which is the first hit in the reversed
index order. -/
def segAssigns (seg : Segment) (p : Pos) : Option Char :=
  if seg.clue.answer = "" then none
  else (seg.cells.zip (answerLetters seg.clue.answer)).reverse.lookup p

/-- The letter the whole mapper leaves at cell p: the last assigning
segment wins, which is the first in the reversed segment order. -/
def lastAssign (segs : List Segment) (p : Pos) : Option Char :=
  segs.reverse.findSome? fun s => segAssigns s p

theorem lookup_append_pairs (l1 l2 : List (Pos × Char)) (k : Pos) :
    (l1 ++ l2).lookup k = orO (l1.lookup k) (l2.lookup k) := by
  induction l1 with
  | nil => simp [orO]
  | cons a t ih =>
    by_cases hk : (k == a.1) = true
    · simp [List.lookup, hk, orO]
    · have hkf : (k == a.1) = false := by
        cases hc : (k == a.1)
        · rfl
        · exact absurd hc hk
      simp only [List.cons_append, List.lookup, hkf]
      exact ih

theorem findSome?_append_segs (l1 l2 : List Segment) (f : Segment → Option Char) :
    (l1 ++ l2).findSome? f = orO (l1.findSome? f) (l2.findSome? f) := by
  induction l1 with
  | nil => simp [orO]
  | cons a t ih =>
    cases hf : f a with
    | some v => simp [List.findSome?, hf, orO]
    | none => simp only [List.cons_append, List.findSome?, hf]; exact ih

theorem foldl_setExpected_expected (l : List (Pos × Char)) (g : Grid) (p : Pos) :
    ((l.foldl (fun g2 pc => setExpected g2 pc.1 (some pc.2)) g) p.1 p.2).expected =
      orO (l.reverse.lookup p) ((g p.1 p.2).expected) := by
  induction l generalizing g with
  | nil => simp [orO]
  | cons pc rest ih =>
    rw [List.foldl_cons, ih, List.reverse_cons, lookup_append_pairs]
    rw [orO_assoc]
    congr 1
    by_cases hpq : p = pc.1
    · subst hpq
      simp [List.lookup, setExpected, orO]
    · have hb : (p == pc.1) = false := by
        simp [hpq]
      have hcond : ¬(p.1 = pc.1.1 ∧ p.2 = pc.1.2) := by
        intro hand
        exact hpq (Prod.ext hand.1 hand.2)
      simp [List.lookup, hb, setExpected, orO, hcond]

theorem assignSeg_expected (g : Grid) (seg : Segment) (p : Pos) :
    ((assignSeg g seg) p.1 p.2).expected = orO (segAssigns seg p) ((g p.1 p.2).expected) := by
  by_cases ha : seg.clue.answer = ""
  · simp [assignSeg, segAssigns, ha, orO]
  · rw [assignSeg, if_neg ha, segAssigns, if_neg ha]
    exact foldl_setExpected_expected _ _ _

theorem foldl_assignSeg_expected (segs : List Segment) (g0 : Grid) (p : Pos) :
    ((segs.foldl assignSeg g0) p.1 p.2).expected =
      orO (lastAssign segs p) ((g0 p.1 p.2).expected) := by
  induction segs generalizing g0 with
  | nil => simp [lastAssign, orO]
  | cons s rest ih =>
    rw [List.foldl_cons, ih]
    simp only [lastAssign, List.reverse_cons, findSome?_append_segs]
    rw [orO_assoc]
    congr 1
    rw [assignSeg_expected]
    congr 1
    cases hf : segAssigns s p <;> simp [List.findSome?, hf, orO]

/-- Per-cell result of the mapper: the last assignment over the segments in
order, or null when no segment assigns the cell. -/
theorem mapExpected_expected (g : Grid) (segs : List Segment) (p : Pos) :
    ((mapExpected g segs) p.1 p.2).expected = lastAssign segs p := by
  rw [mapExpected, foldl_assignSeg_expected]
  have : ((resetExpected g) p.1 p.2).expected = none := rfl
  rw [this, orO_none_right]

theorem lookup_some_mem {α β : Type} [BEq α] [LawfulBEq α]
    (l : List (α × β)) (k : α) (v : β) (h : l.lookup k = some v) : (k, v) ∈ l := by
  induction l with
  | nil => simp [List.lookup] at h
  | cons a t ih =>
    by_cases hk : (k == a.1) = true
    · simp only [List.lookup, hk] at h
      have h1 : k = a.1 := by exact beq_iff_eq.mp hk
      have h2 : a.2 = v := by simpa using h
      have hkv : (k, v) = a := by
        cases a
        simp_all
      rw [hkv]
      exact List.mem_cons_self _ _
    · have hkf : (k == a.1) = false := by
        cases hc : (k == a.1)
        · rfl
        · exact absurd hc hk
      simp only [List.lookup, hkf] at h
      exact List.mem_cons_of_mem _ (ih h)

theorem mem_zip_get {α β : Type} :
    ∀ (l1 : List α) (l2 : List β) (a : α) (b : β), (a, b) ∈ l1.zip l2 →
      ∃ i, l1.get? i = some a ∧ l2.get? i = some b := by
  intro l1
  induction l1 with
  | nil => intro l2 a b h; simp at h
  | cons x xs ih =>
    intro l2 a b h
    cases l2 with
    | nil => simp at h
    | cons y ys =>
      rcases List.mem_cons.mp h with heq | hmem
      · refine ⟨0, ?_, ?_⟩ <;> simp_all
      · rcases ih ys a b hmem with ⟨i, h1, h2⟩
        exact ⟨i + 1, by simpa using h1, by simpa using h2⟩

/-- A segment assigns p only through an index below both the run length and
the stripped answer length. -/
theorem segAssigns_some {seg : Segment} {p : Pos} {ch : Char}
    (h : segAssigns seg p = some ch) :
    seg.clue.answer ≠ "" ∧
    ∃ i, seg.cells.get? i = some p ∧
      (answerLetters seg.clue.answer).get? i = some ch := by
  by_cases ha : seg.clue.answer = ""
  · rw [segAssigns, if_pos ha] at h
    cases h
  · rw [segAssigns, if_neg ha] at h
    refine ⟨ha, ?_⟩
    have hmem : (p, ch) ∈ (seg.cells.zip (answerLetters seg.clue.answer)).reverse :=
      lookup_some_mem _ _ _ h
    rw [List.mem_reverse] at hmem
    exact mem_zip_get _ _ _ _ hmem

theorem findSome?_eq_none_of_all {l : List Segment} {f : Segment → Option Char}
    (h : ∀ x ∈ l, f x = none) : l.findSome? f = none := by
  induction l with
  | nil => rfl
  | cons a t ih =>
    rw [List.findSome?, h a (List.mem_cons_self _ _)]
    exact ih fun x hx => h x (List.mem_cons_of_mem _ hx)

theorem findSome?_eq_some_of_all {l : List Segment} {f : Segment → Option Char} {v : Char}
    (hall : ∀ x ∈ l, f x = none ∨ f x = some v) (hex : ∃ x ∈ l, f x = some v) :
    l.findSome? f = some v := by
  induction l with
  | nil => rcases hex with ⟨x, hx, -⟩; cases hx
  | cons a t ih =>
    rcases hall a (List.mem_cons_self _ _) with hfa | hfa
    · rw [List.findSome?, hfa]
      apply ih fun x hx => hall x (List.mem_cons_of_mem _ hx)
      rcases hex with ⟨x, hx, hfx⟩
      rcases List.mem_cons.mp hx with rfl | hxt
      · rw [hfa] at hfx; cases hfx
      · exact ⟨x, hxt, hfx⟩
    · rw [List.findSome?, hfa]

/-! ### Leaderboard aggregation lemmas -/

theorem lookup_none_key {α β : Type} [BEq α] [LawfulBEq α]
    (m : List (α × β)) (k : α) (h : m.lookup k = none) : ∀ kv ∈ m, kv.1 ≠ k := by
  induction m with
  | nil => intro kv hkv; cases hkv
  | cons a t ih =>
    intro kv hkv
    by_cases hk : (k == a.1) = true
    · simp [List.lookup, hk] at h
    · have hkf : (k == a.1) = false := by
        cases hc : (k == a.1)
        · rfl
        · exact absurd hc hk
      simp only [List.lookup, hkf] at h
      rcases List.mem_cons.mp hkv with rfl | hkt
      · intro hcon
        rw [hcon] at hk
        exact hk (beq_iff_eq.mpr rfl)
      · exact ih h kv hkt

theorem lookup_nodup_val {α β : Type} [BEq α] [LawfulBEq α]
    {m : List (α × β)} {k : α} {v w : β}
    (hnd : (m.map Prod.fst).Nodup) (hmem : (k, v) ∈ m) (hlk : m.lookup k = some w) :
    v = w := by
  induction m with
  | nil => cases hmem
  | cons a t ih =>
    rw [List.map_cons] at hnd
    rcases List.nodup_cons.mp hnd with ⟨hafst, hndt⟩
    by_cases hk : (k == a.1) = true
    · simp only [List.lookup, hk] at hlk
      have hk2 : k = a.1 := beq_iff_eq.mp hk
      have hw : a.2 = w := by simpa using hlk
      rcases List.mem_cons.mp hmem with heq | hkt
      · rw [← hw]
        exact congrArg Prod.snd heq.symm ▸ rfl
      · exfalso
        apply hafst
        rw [hk2] at hkt
        exact List.mem_map.mpr ⟨(a.1, v), hkt, rfl⟩
    · have hkf : (k == a.1) = false := by
        cases hc : (k == a.1)
        · rfl
        · exact absurd hc hk
      simp only [List.lookup, hkf] at hlk
      rcases List.mem_cons.mp hmem with heq | hkt
      · exfalso
        have : k = a.1 := congrArg Prod.fst heq
        rw [this] at hkf
        simp at hkf
      · exact ih hndt hkt hlk

theorem insertBest_spec (m : List (String × HighscoreRow)) (row : HighscoreRow)
    (hrow : 0 < row.time_ms)
    (hm : ∀ kv ∈ m, kv.1 = nickKey kv.2.nickname ∧ 0 < kv.2.time_ms)
    (hnd : (m.map Prod.fst).Nodup) :
    (∀ kv ∈ insertBest m row, kv ∈ m ∨ kv = (nickKey row.nickname, row)) ∧
    (∀ kv ∈ insertBest m row, kv.1 = nickKey kv.2.nickname ∧ 0 < kv.2.time_ms) ∧
    ((insertBest m row).map Prod.fst).Nodup ∧
    (∃ kv ∈ insertBest m row, kv.1 = nickKey row.nickname ∧ kv.2.time_ms ≤ row.time_ms) ∧
    (∀ kv0 ∈ m, ∃ kv ∈ insertBest m row, kv.1 = kv0.1 ∧ kv.2.time_ms ≤ kv0.2.time_ms) := by
  cases hlk : m.lookup (nickKey row.nickname) with
  | none =>
    have heq : insertBest m row = m ++ [(nickKey row.nickname, row)] := by
      simp only [insertBest, hlk]
    rw [heq]
    have hnotin := lookup_none_key m _ hlk
    refine ⟨?_, ?_, ?_, ?_, ?_⟩
    · intro kv hkv
      rcases List.mem_append.mp hkv with h | h
      · exact Or.inl h
      · exact Or.inr (by simpa using h)
    · intro kv hkv
      rcases List.mem_append.mp hkv with h | h
      · exact hm kv h
      · have : kv = (nickKey row.nickname, row) := by simpa using h
        rw [this]
        exact ⟨rfl, hrow⟩
    · rw [List.map_append]
      rw [List.nodup_append]
      refine ⟨hnd, by simp, ?_⟩
      intro a ha hb
      have : a = nickKey row.nickname := by simpa using hb
      rcases List.mem_map.mp ha with ⟨kv, hkv, rfl⟩
      exact hnotin kv hkv this
    · exact ⟨(nickKey row.nickname, row),
        List.mem_append.mpr (Or.inr (by simp)), rfl, le_refl _⟩
    · intro kv0 h
      exact ⟨kv0, List.mem_append.mpr (Or.inl h), rfl, le_refl _⟩
  | some prev =>
    have hprevmem : (nickKey row.nickname, prev) ∈ m := lookup_some_mem _ _ _ hlk
    have hprevpos : 0 < prev.time_ms := (hm _ hprevmem).2
    have hfst : ((m.map fun kv =>
        if kv.1 = nickKey row.nickname then (nickKey row.nickname, row) else kv).map
          Prod.fst) = m.map Prod.fst := by
      rw [List.map_map]
      apply List.map_congr_left
      intro kv _
      by_cases h : kv.1 = nickKey row.nickname <;> simp [h, Function.comp]
    by_cases hcond : (decide (row.time_ms < prev.time_ms) || prev.time_ms == 0) = true
    · have heq : insertBest m row =
          m.map fun kv =>
            if kv.1 = nickKey row.nickname then (nickKey row.nickname, row) else kv := by
        simp only [insertBest, hlk]
        rw [if_pos hcond]
      rw [heq]
      have hlt : row.time_ms < prev.time_ms := by
        have hor : decide (row.time_ms < prev.time_ms) = true ∨ (prev.time_ms == 0) = true := by
          simpa using hcond
        rcases hor with h | h
        · exact of_decide_eq_true h
        · exact absurd (beq_iff_eq.mp h) (Nat.pos_iff_ne_zero.mp hprevpos)
      have hmem2 : (nickKey row.nickname, row) ∈
          m.map fun kv =>
            if kv.1 = nickKey row.nickname then (nickKey row.nickname, row) else kv := by
        apply List.mem_map.mpr
        exact ⟨(nickKey row.nickname, prev), hprevmem, by simp⟩
      refine ⟨?_, ?_, ?_, ?_, ?_⟩
      · intro kv hkv
        rcases List.mem_map.mp hkv with ⟨kv0, hkv0, rfl⟩
        by_cases h : kv0.1 = nickKey row.nickname
        · exact Or.inr (by simp [h])
        · exact Or.inl (by simp [h, hkv0])
      · intro kv hkv
        rcases List.mem_map.mp hkv with ⟨kv0, hkv0, rfl⟩
        by_cases h : kv0.1 = nickKey row.nickname
        · simp [h, hrow]
        · simp only [h, if_neg]
          exact hm kv0 hkv0
      · rw [hfst]
        exact hnd
      · exact ⟨(nickKey row.nickname, row), hmem2, rfl, le_refl _⟩
      · intro kv0 hkv0
        by_cases h : kv0.1 = nickKey row.nickname
        · refine ⟨(nickKey row.nickname, row), hmem2, h.symm, ?_⟩
          have hkv0e : (nickKey row.nickname, kv0.2) ∈ m := by
            have : (nickKey row.nickname, kv0.2) = kv0 := by
              cases kv0
              simp_all
            rw [this]
            exact hkv0
          have : kv0.2 = prev := lookup_nodup_val hnd hkv0e hlk
          rw [this]
          exact le_of_lt hlt
        · refine ⟨kv0, ?_, rfl, le_refl _⟩
          apply List.mem_map.mpr
          exact ⟨kv0, hkv0, by simp [h]⟩
    · have hcondf : (decide (row.time_ms < prev.time_ms) || prev.time_ms == 0) = false := by
        cases hc : (decide (row.time_ms < prev.time_ms) || prev.time_ms == 0)
        · rfl
        · exact absurd hc hcond
      have heq : insertBest m row = m := by
        simp only [insertBest, hlk]
        rw [if_neg (by simp [hcondf])]
      rw [heq]
      have hge : prev.time_ms ≤ row.time_ms := by
        have h2 : ¬(row.time_ms < prev.time_ms) ∧ ¬(prev.time_ms = 0) := by
          simpa [not_or] using hcondf
        omega
      refine ⟨fun kv h => Or.inl h, hm, hnd,
        ⟨(nickKey row.nickname, prev), hprevmem, rfl, hge⟩,
        fun kv0 h => ⟨kv0, h, rfl, le_refl _⟩⟩

theorem bestFold_spec :
    ∀ (rows : List HighscoreRow) (m : List (String × HighscoreRow)),
      (∀ r ∈ rows, 0 < r.time_ms) →
      (∀ kv ∈ m, kv.1 = nickKey kv.2.nickname ∧ 0 < kv.2.time_ms) →
      ((m.map Prod.fst).Nodup) →
      (∀ kv ∈ rows.foldl insertBest m,
         kv.1 = nickKey kv.2.nickname ∧ 0 < kv.2.time_ms ∧ (kv.2 ∈ rows ∨ kv ∈ m)) ∧
      (((rows.foldl insertBest m).map Prod.fst).Nodup) ∧
      (∀ kv0 ∈ m, ∃ kv ∈ rows.foldl insertBest m,
         kv.1 = kv0.1 ∧ kv.2.time_ms ≤ kv0.2.time_ms) ∧
      (∀ r ∈ rows, ∃ kv ∈ rows.foldl insertBest m,
         kv.1 = nickKey r.nickname ∧ kv.2.time_ms ≤ r.time_ms) := by
  intro rows
  induction rows with
  | nil =>
    intro m _ hm hnd
    exact ⟨fun kv h => ⟨(hm kv h).1, (hm kv h).2, Or.inr h⟩, hnd,
      fun kv0 h => ⟨kv0, h, rfl, le_refl _⟩, fun r h => absurd h (List.not_mem_nil r)⟩
  | cons r rest ih =>
    intro m hrows hm hnd
    have hr : 0 < r.time_ms := hrows r (List.mem_cons_self _ _)
    have hrest : ∀ x ∈ rest, 0 < x.time_ms :=
      fun x hx => hrows x (List.mem_cons_of_mem _ hx)
    obtain ⟨sprov, skeyed, snd, srow, smin⟩ := insertBest_spec m r hr hm hnd
    obtain ⟨iprov, ind, imin, irow⟩ := ih (insertBest m r) hrest skeyed snd
    have hfold : (r :: rest).foldl insertBest m = rest.foldl insertBest (insertBest m r) := rfl
    rw [hfold]
    refine ⟨?_, ind, ?_, ?_⟩
    · intro kv hkv
      rcases iprov kv hkv with ⟨h1, h2, h3 | h3⟩
      · exact ⟨h1, h2, Or.inl (List.mem_cons_of_mem _ h3)⟩
      · rcases sprov kv h3 with h4 | h4
        · exact ⟨h1, h2, Or.inr h4⟩
        · refine ⟨h1, h2, Or.inl ?_⟩
          rw [h4]
          exact List.mem_cons_self _ _
    · intro kv0 hkv0
      rcases smin kv0 hkv0 with ⟨kv1, hkv1, hk1, ht1⟩
      rcases imin kv1 hkv1 with ⟨kv, hkv, hk, ht⟩
      exact ⟨kv, hkv, hk.trans hk1, ht.trans ht1⟩
    · intro x hx
      rcases List.mem_cons.mp hx with rfl | hxt
      · rcases srow with ⟨kv1, hkv1, hk1, ht1⟩
        rcases imin kv1 hkv1 with ⟨kv, hkv, hk, ht⟩
        exact ⟨kv, hkv, hk.trans hk1, ht.trans ht1⟩
      · exact irow x hxt

theorem mem_sortByTime {l : List HighscoreRow} {x : HighscoreRow} :
    x ∈ sortByTime l ↔ x ∈ l :=
  (List.perm_insertionSort hsLE l).mem_iff

/-! ### Concrete fixtures -/

/-- An empty cell as produced by emptyGrid. -/
def emptyCell : Cell := ⟨.empty, none, none, none, none⟩

/-- A clue cell with the given variant and stored answer. -/
def clueCell (v : Variant) (ans : String) : Cell := ⟨.clue, some ⟨"", v, ans⟩, none, none, none⟩

/-- An empty cell holding a typed letter. -/
def letterCell (l : Char) : Cell := { emptyCell with letter := some l }

/-- Placeholder segment for headD. -/
def dummySeg : Segment := ⟨"", (0, 0), .RIGHT, (0, 0), [], ⟨"", .LEFT_CLUE_RIGHT, ""⟩⟩

/-- Crossing grid: a vertical answered run from the clue at (0,1) and a
horizontal answered run from the clue at (1,0) share the cell (1,1), which
holds the wrong letter Y; the horizontal run is incomplete at (1,2). -/
def gHysteresisBase : Grid := fun r c =>
  if r = 0 ∧ c = 1 then clueCell .ABOVE_CLUE_DOWN "X"
  else if r = 1 ∧ c = 0 then clueCell .LEFT_CLUE_RIGHT "AB"
  else if r = 1 ∧ c = 1 then letterCell 'Y'
  else emptyCell

/-- The hysteresis fixture after the expected-letter mapper. -/
def gHysteresis : Grid := mapExpected gHysteresisBase (buildSegments gHysteresisBase)

/-- One incomplete answered run: A typed at (0,1), (0,2) still empty. -/
def gIncompleteBase : Grid := fun r c =>
  if r = 0 ∧ c = 0 then clueCell .LEFT_CLUE_RIGHT "AB"
  else if r = 0 ∧ c = 1 then letterCell 'A'
  else emptyCell

/-- The incomplete fixture after the expected-letter mapper. -/
def gIncomplete : Grid := mapExpected gIncompleteBase (buildSegments gIncompleteBase)

/-- Crossing grid where the horizontal segment from the clue at (1,0) has
no answer of its own but inherits the expectation at (1,1) from the
vertical answered run, holds the right letter there, and has a stray Z at
(1,2). -/
def gStrayBase : Grid := fun r c =>
  if r = 0 ∧ c = 1 then clueCell .ABOVE_CLUE_DOWN "X"
  else if r = 1 ∧ c = 0 then clueCell .LEFT_CLUE_RIGHT ""
  else if r = 1 ∧ c = 1 then letterCell 'X'
  else if r = 1 ∧ c = 2 then letterCell 'Z'
  else emptyCell

/-- The stray fixture after the expected-letter mapper. -/
def gStray : Grid := mapExpected gStrayBase (buildSegments gStrayBase)

/-- A fully filled wrong run: answer AB, typed A at (0,1) and X at (0,2). -/
def gWrongBase : Grid := fun r c =>
  if r = 0 ∧ c = 0 then clueCell .LEFT_CLUE_RIGHT "AB"
  else if r = 0 ∧ c = 1 then letterCell 'A'
  else if r = 0 ∧ c = 2 then letterCell 'X'
  else emptyCell

/-- The wrong-run fixture after the expected-letter mapper. -/
def gWrong : Grid := mapExpected gWrongBase (buildSegments gWrongBase)

/-- A single clue with answer AB in an otherwise empty grid. -/
def gSimple : Grid := fun r c =>
  if r = 0 ∧ c = 0 then clueCell .LEFT_CLUE_RIGHT "AB"
  else emptyCell

/-- Edge fixture: the clue at (0,0) has its run start (0,1) occupied by
another clue, giving an empty run; the clue at (2,0) resolves its start to
(2,-1), outside the grid. -/
def gEdge : Grid := fun r c =>
  if r = 0 ∧ c = 0 then clueCell .LEFT_CLUE_RIGHT "A"
  else if r = 0 ∧ c = 1 then clueCell .ABOVE_CLUE_DOWN "B"
  else if r = 2 ∧ c = 0 then clueCell .LEFT_OF_CLUE_DOWN "C"
  else emptyCell

/-- Crossing fixture for the mapper: the clue at (0,0) has the length-1
answer A on an 11-cell run; the clue at (1,2) points its run at (0,2),
inside the tail [1, 11) of the first run, and assigns Z there. -/
def gCross : Grid := fun r c =>
  if r = 0 ∧ c = 0 then clueCell .LEFT_CLUE_RIGHT "A"
  else if r = 1 ∧ c = 2 then clueCell .ABOVE_OF_CLUE_RIGHT "Z"
  else emptyCell

/-- Completion fixture: answer A solved at (0,1); stray Z at (0,2) in a
cell with no expectation. -/
def gCompleteBase : Grid := fun r c =>
  if r = 0 ∧ c = 0 then clueCell .LEFT_CLUE_RIGHT "A"
  else if r = 0 ∧ c = 1 then letterCell 'A'
  else if r = 0 ∧ c = 2 then letterCell 'Z'
  else emptyCell

/-- The completion fixture after the expected-letter mapper. -/
def gComplete : Grid := mapExpected gCompleteBase (buildSegments gCompleteBase)

/-- Example leaderboard rows of the spec: Ann with 5000 and 3000 and a
reload sentinel for Bo, all on the same day. -/
def hsExampleDate : String := "2024-05-01"

def hsExampleToday : String := "2024-05-02"

def hsAnn5000 : HighscoreRow := ⟨1, "Ann", 5000, "2024-05-01T10:00:00Z"⟩

def hsAnn3000 : HighscoreRow := ⟨2, "Ann", 3000, "2024-05-01T11:00:00Z"⟩

def hsBo0 : HighscoreRow := ⟨3, "Bo", 0, "2024-05-01T12:00:00Z"⟩

def hsExampleRows : List HighscoreRow := [hsAnn5000, hsAnn3000, hsBo0]

/-- A row for pagination fixtures. -/
def hsFiller : HighscoreRow := ⟨0, "x", 1, "2024-05-01T00:00:00Z"⟩

/-! ### Claim theorems -/

/-- C1 (counterexample): in the crossing fixture, the horizontal segment
has an expectation and an unfilled expected cell, yet one evaluation pass
from the empty ErrorSet adds a flag on one of its cells, (1,1) — the cell
is also covered by the fully filled, wrong vertical segment.  The claim
that the pass leaves the membership of an incomplete segment on all of its
cells unchanged is therefore false as stated. -/
theorem claim1_hysteresis_counterexample :
    ∃ seg ∈ buildSegments gHysteresis,
      segHasExpectation gHysteresis seg ∧ ¬ segFullyFilled gHysteresis seg ∧
      ∃ p ∈ seg.cells, p ∉ (∅ : ErrorSet) ∧
        p ∈ setIncorrectCells gHysteresis (buildSegments gHysteresis) ∅ := by
  decide

/-- C1 (amended): for a segment with at least one expected cell of which
some expected cell is unfilled, one run of the evaluation pass leaves the
ErrorSet membership unchanged on each of its cells that does not also
belong to a segment with a non-empty answer that has expectation and is
fully filled; only such shared cells can be recomputed by the pass. -/
theorem claim1_hysteresis_amended :
    ∀ (g : Grid) (segs : List Segment) (prev : ErrorSet) (seg : Segment),
      seg ∈ segs → segHasExpectation g seg → ¬ segFullyFilled g seg →
      ∀ p ∈ seg.cells,
        (∀ s ∈ segs, s.clue.answer ≠ "" → segHasExpectation g s →
          segFullyFilled g s → p ∉ s.cells) →
        (p ∈ setIncorrectCells g segs prev ↔ p ∈ prev) := by
  intro g segs prev seg _ _ _ p _ hframe
  apply setIncorrectCells_frame
  intro s hs ha hg
  exact hframe s hs ha (segGuard_iff.mp hg).1 (segGuard_iff.mp hg).2

/-- C1 witness: the incomplete fixture run keeps its prior flag on (0,1)
through one evaluation pass. -/
theorem claim1_hysteresis_witness :
    (((0 : Int), (1 : Int)) ∈ setIncorrectCells gIncomplete (buildSegments gIncomplete)
        {((0 : Int), (1 : Int))}) ↔
      ((0 : Int), (1 : Int)) ∈ ({((0 : Int), (1 : Int))} : ErrorSet) :=
  claim1_hysteresis_amended gIncomplete (buildSegments gIncomplete)
    {((0 : Int), (1 : Int))} ((buildSegments gIncomplete).headD dummySeg)
    (by decide) (by decide) (by decide) ((0 : Int), (1 : Int)) (by decide) (by decide)

/-- C2 (counterexample): in the stray fixture, the horizontal segment has
an expectation (inherited from the crossing answered run) and is fully
filled, and it holds a stray letter at (1,2); the claim demands that after
the pass the ErrorSet on this segment contains exactly the mismatched and
stray cells, hence (1,2), but the pass never flags it because the segment
has no answer of its own and is skipped. -/
theorem claim2_recompute_counterexample :
    ∃ seg ∈ buildSegments gStray,
      segHasExpectation gStray seg ∧ segFullyFilled gStray seg ∧
      ∃ p ∈ seg.cells,
        (gStray p.1 p.2).expected = none ∧ (gStray p.1 p.2).letter ≠ none ∧
        p ∉ setIncorrectCells gStray (buildSegments gStray) ∅ := by
  decide

/-- C2 (amended): restricted to segments whose clue has a non-empty
answer: for such a segment with at least one expected cell and all
expected cells filled, after the pass a cell of the segment is in the
ErrorSet exactly when its letter differs from a non-null expectation or it
is non-empty with a null expectation; in particular an entirely correct
segment keeps no flags. -/
theorem claim2_recompute_amended :
    ∀ (g : Grid) (segs : List Segment) (prev : ErrorSet) (seg : Segment),
      seg ∈ segs → seg.clue.answer ≠ "" →
      segHasExpectation g seg → segFullyFilled g seg →
      ∀ p ∈ seg.cells,
        (p ∈ setIncorrectCells g segs prev ↔
          ((∃ e, (g p.1 p.2).expected = some e ∧ (g p.1 p.2).letter ≠ some e) ∨
           ((g p.1 p.2).expected = none ∧ (g p.1 p.2).letter ≠ none))) := by
  intro g segs prev seg hmem ha hexp hfull p hp
  rw [setIncorrectCells_mem_of_processed hmem ha (segGuard_iff.mpr ⟨hexp, hfull⟩) prev hp]
  cases he : (g p.1 p.2).expected with
  | some e =>
    have hl : (g p.1 p.2).letter ≠ none := hfull p hp (by simp [he])
    cases hlet : (g p.1 p.2).letter with
    | none => exact absurd hlet hl
    | some l =>
      constructor
      · intro hw
        have : l ≠ e := by simpa [cellIsWrong, he, hlet] using hw
        exact Or.inl ⟨e, rfl, by simpa using this⟩
      · rintro (⟨e2, he2, hne⟩ | ⟨hnone, -⟩)
        · have he3 : e2 = e := (Option.some_inj.mp he2).symm
          subst he3
          simp only [cellIsWrong, he, hlet]
          simpa using hne
        · simp at hnone
  | none =>
    cases hlet : (g p.1 p.2).letter with
    | none => simp [cellIsWrong, he, hlet]
    | some l => simp [cellIsWrong, he, hlet]

/-- C2 witness: in the fully filled wrong fixture, the mismatched cell
(0,2) is flagged by the pass from the empty set. -/
theorem claim2_recompute_witness :
    (((0 : Int), (2 : Int)) ∈ setIncorrectCells gWrong (buildSegments gWrong) ∅) ↔
      ((∃ e, (gWrong 0 2).expected = some e ∧ (gWrong 0 2).letter ≠ some e) ∨
       ((gWrong 0 2).expected = none ∧ (gWrong 0 2).letter ≠ none)) :=
  claim2_recompute_amended gWrong (buildSegments gWrong) ∅
    ((buildSegments gWrong).headD dummySeg) (by decide) (by decide) (by decide)
    (by decide) ((0 : Int), (2 : Int)) (by decide)

/-- C3: puzzle-complete is true exactly when some cell has a non-null
expectation and every cell with a non-null expectation holds exactly that
letter; it is a function of the grid alone, and on a grid with no
expectations it is false. -/
theorem claim3_puzzle_complete :
    ∀ g : Grid,
      (allCorrect g = true ↔
        ((∃ p ∈ gridCells, (g p.1 p.2).expected ≠ none) ∧
         ∀ p ∈ gridCells, ∀ e, (g p.1 p.2).expected = some e → (g p.1 p.2).letter = some e)) ∧
      ((∀ p ∈ gridCells, (g p.1 p.2).expected = none) → allCorrect g = false) := by
  intro g
  refine ⟨allCorrect_iff g, ?_⟩
  intro hall
  cases hac : allCorrect g
  · rfl
  · exfalso
    rcases (allCorrect_iff g).mp hac with ⟨⟨p, hp, hne⟩, -⟩
    exact hne (hall p hp)

theorem setLetterAt_changed {g : Grid} {q : Pos} {l : Option Char} {p : Pos}
    (h : ((setLetterAt g q l) p.1 p.2).letter ≠ (g p.1 p.2).letter) : p = q := by
  by_cases hc : p.1 = q.1 ∧ p.2 = q.2
  · exact Prod.ext hc.1 hc.2
  · exfalso
    apply h
    simp [setLetterAt, hc]

/-- C4: the keyboard handler removes the edited cell from the ErrorSet in
the same edit step: the letter branch erases the written cell, and in both
branches any cell whose letter changed is absent from the resulting set,
for every grid, set and cursor, independent of segment completeness. -/
theorem claim4_immediate_unflag :
    ∀ (g : Grid) (es : ErrorSet) (a : ActiveSeg) (L : Char),
      (a.seg.cells.getD a.index (0, 0) ∉ (handleLetter g es a L).2.1) ∧
      (∀ p : Pos,
        ((handleLetter g es a L).1 p.1 p.2).letter ≠ (g p.1 p.2).letter →
          p ∉ (handleLetter g es a L).2.1) ∧
      (∀ p : Pos,
        ((handleBackspace g es a).1 p.1 p.2).letter ≠ (g p.1 p.2).letter →
          p ∉ (handleBackspace g es a).2.1) := by
  intro g es a L
  refine ⟨?_, ?_, ?_⟩
  · exact Finset.not_mem_erase _ _
  · intro p h
    have hpq : p = a.seg.cells.getD a.index (0, 0) := setLetterAt_changed h
    rw [hpq]
    exact Finset.not_mem_erase _ _
  · intro p h
    unfold handleBackspace at h ⊢
    by_cases h1 : ((g (a.seg.cells.getD a.index (0, 0)).1
        (a.seg.cells.getD a.index (0, 0)).2).letter).isSome = true
    · simp only [h1, if_pos] at h ⊢
      rw [setLetterAt_changed h]
      exact Finset.not_mem_erase _ _
    · by_cases h2 : 0 < a.index
      · simp only [h1, h2, if_neg, if_pos, Bool.not_eq_true] at h ⊢
        rw [setLetterAt_changed h]
        exact Finset.not_mem_erase _ _
      · simp only [h1, h2, if_neg, Bool.not_eq_true] at h
        exact absurd rfl h

/-- C5: every built segment follows the six-row arrow-variant table for its
start and direction, its cells are exactly the consecutive ray cells from
the start that are in bounds and not clue cells, the ray cell right after
the run is out of bounds or a clue cell, and hence no cell of a segment is
a clue cell or out of bounds. -/
theorem claim5_geometry :
    ∀ (g : Grid) (seg : Segment), seg ∈ buildSegments g →
      ((seg.clue.variant = .LEFT_CLUE_RIGHT →
          seg.start = (seg.cluePos.1, seg.cluePos.2 + 1) ∧ seg.dir = .RIGHT) ∧
       (seg.clue.variant = .ABOVE_CLUE_DOWN →
          seg.start = (seg.cluePos.1 + 1, seg.cluePos.2) ∧ seg.dir = .DOWN) ∧
       (seg.clue.variant = .LEFT_CLUE_DOWN →
          seg.start = (seg.cluePos.1, seg.cluePos.2 + 1) ∧ seg.dir = .DOWN) ∧
       (seg.clue.variant = .ABOVE_CLUE_RIGHT →
          seg.start = (seg.cluePos.1 + 1, seg.cluePos.2) ∧ seg.dir = .RIGHT) ∧
       (seg.clue.variant = .ABOVE_OF_CLUE_RIGHT →
          seg.start = (seg.cluePos.1 - 1, seg.cluePos.2) ∧ seg.dir = .RIGHT) ∧
       (seg.clue.variant = .LEFT_OF_CLUE_DOWN →
          seg.start = (seg.cluePos.1, seg.cluePos.2 - 1) ∧ seg.dir = .DOWN)) ∧
      (∀ i, i < seg.cells.length →
        seg.cells.get? i = some (ray seg.start seg.dir i) ∧
        inBounds (ray seg.start seg.dir i).1 (ray seg.start seg.dir i).2 = true ∧
        ¬ (g (ray seg.start seg.dir i).1 (ray seg.start seg.dir i).2).type = CellType.clue) ∧
      (inBounds (ray seg.start seg.dir seg.cells.length).1
          (ray seg.start seg.dir seg.cells.length).2 = false ∨
        (g (ray seg.start seg.dir seg.cells.length).1
          (ray seg.start seg.dir seg.cells.length).2).type = CellType.clue) ∧
      (∀ p ∈ seg.cells, inBounds p.1 p.2 = true ∧ ¬ (g p.1 p.2).type = CellType.clue) := by
  intro g seg hmem
  rcases mem_buildSegments.mp hmem with ⟨r, hr, c, hc, hseg⟩
  obtain ⟨ht, hcl, hpos, hstart, hdir, hcells, hib⟩ := of_mem_segsAt hseg
  have hfuel : (N : Int) - dirCoord seg.start seg.dir ≤ ((N : Nat) : Int) := by
    have h0 : 0 ≤ dirCoord seg.start seg.dir := by
      rcases inBounds_iff.mp hib with ⟨h1, -, h3, -⟩
      cases seg.dir <;> simpa [dirCoord]
    omega
  have hspec := walkLoop_spec g seg.dir N seg.start hfuel
  rw [← hcells] at hspec
  obtain ⟨h1, h2⟩ := hspec
  have hcellSpec : ∀ i, i < seg.cells.length →
      seg.cells.get? i = some (ray seg.start seg.dir i) ∧
      inBounds (ray seg.start seg.dir i).1 (ray seg.start seg.dir i).2 = true ∧
      ¬ (g (ray seg.start seg.dir i).1 (ray seg.start seg.dir i).2).type = CellType.clue := by
    intro i hi
    rcases h1 i hi with ⟨hget, hgood⟩
    rcases goodB_iff.mp hgood with ⟨hib2, hnc⟩
    exact ⟨hget, hib2, hnc⟩
  refine ⟨?_, hcellSpec, ?_, ?_⟩
  · refine ⟨?_, ?_, ?_, ?_, ?_, ?_⟩ <;>
      (intro hv; rw [hpos, hstart, hdir, hv]; simp [startDir])
  · by_cases hib3 : inBounds (ray seg.start seg.dir seg.cells.length).1
        (ray seg.start seg.dir seg.cells.length).2 = true
    · right
      by_contra hnc
      exact absurd (goodB_iff.mpr ⟨hib3, hnc⟩) (by simp [h2])
    · left
      cases hc2 : inBounds (ray seg.start seg.dir seg.cells.length).1
          (ray seg.start seg.dir seg.cells.length).2
      · rfl
      · exact absurd hc2 hib3
  · intro p hp
    rcases List.mem_iff_get?.mp hp with ⟨n, hn⟩
    have hlen : n < seg.cells.length := by
      by_contra hcon
      rw [List.get?_eq_none.mpr (le_of_not_lt hcon)] at hn
      cases hn
    rcases hcellSpec n hlen with ⟨hget, hib2, hnc⟩
    rw [hn] at hget
    have hpr : p = ray seg.start seg.dir n := Option.some_inj.mp hget
    rw [hpr]
    exact ⟨hib2, hnc⟩

/-- C5 witness: in the one-clue fixture, the first cell of the emitted
segment is the first ray cell and the cell after the run is out of bounds
or a clue cell. -/
theorem claim5_geometry_witness :
    (((buildSegments gSimple).headD dummySeg).cells.get? 0 =
      some (ray ((buildSegments gSimple).headD dummySeg).start
        ((buildSegments gSimple).headD dummySeg).dir 0)) ∧
    (inBounds (ray ((buildSegments gSimple).headD dummySeg).start
        ((buildSegments gSimple).headD dummySeg).dir
        ((buildSegments gSimple).headD dummySeg).cells.length).1
      (ray ((buildSegments gSimple).headD dummySeg).start
        ((buildSegments gSimple).headD dummySeg).dir
        ((buildSegments gSimple).headD dummySeg).cells.length).2 = false ∨
      (gSimple (ray ((buildSegments gSimple).headD dummySeg).start
        ((buildSegments gSimple).headD dummySeg).dir
        ((buildSegments gSimple).headD dummySeg).cells.length).1
        (ray ((buildSegments gSimple).headD dummySeg).start
          ((buildSegments gSimple).headD dummySeg).dir
          ((buildSegments gSimple).headD dummySeg).cells.length).2).type =
        CellType.clue) :=
  ⟨((claim5_geometry gSimple ((buildSegments gSimple).headD dummySeg)
      (by decide)).2.1 0 (by decide)).1,
   (claim5_geometry gSimple ((buildSegments gSimple).headD dummySeg)
      (by decide)).2.2.1⟩

/-- C6: the builder emits exactly one segment per scan position that is a
clue cell with an in-bounds variant-resolved start — whatever the cells of
the run, including the empty run — and no segment otherwise (an
out-of-bounds start is skipped silently); every emitted segment originates
at an in-range clue position. -/
theorem claim6_emission :
    (∀ (g : Grid) (r c : Nat), r < N → c < N →
      ((buildSegments g).countP fun s => decide (s.cluePos = ((r : Int), (c : Int)))) =
        if emitCondB g r c then 1 else 0) ∧
    (∀ (g : Grid) (s : Segment), s ∈ buildSegments g →
      ∃ r : Nat, r < N ∧ ∃ c : Nat, c < N ∧ s.cluePos = ((r : Int), (c : Int))) := by
  constructor
  · exact buildSegments_countP
  · intro g s hs
    rcases mem_buildSegments.mp hs with ⟨r, hr, c, hc, hseg⟩
    exact ⟨r, hr, c, hc, (of_mem_segsAt hseg).2.2.1⟩

/-- C6 witness: in the edge fixture the clue at (0,0), whose run start is
itself a clue cell, emits exactly one (empty-run) segment, while the clue
at (2,0), whose resolved start (2,-1) is outside the grid, emits none. -/
theorem claim6_emission_witness :
    ((buildSegments gEdge).countP fun s => decide (s.cluePos = ((0 : Int), (0 : Int)))) = 1 ∧
    ((buildSegments gEdge).countP fun s => decide (s.cluePos = ((2 : Int), (0 : Int)))) = 0 ∧
    (∃ s ∈ buildSegments gEdge, s.cluePos = ((0 : Int), (0 : Int)) ∧ s.cells = []) :=
  ⟨(claim6_emission.1 gEdge 0 0 (by decide) (by decide)).trans (by decide),
   (claim6_emission.1 gEdge 2 0 (by decide) (by decide)).trans (by decide),
   by decide⟩

/-- C7 (counterexample): in the crossing mapper fixture the segment of the
clue at (0,0) has a stripped answer of length 1 on a run longer than 1,
and its run-index-1 cell (0,2) does not keep a null expectedLetter after
the mapper: the crossing segment assigns Z there.  The claim that cells at
run indices in [L, R) keep expectedLetter null is therefore false as
stated. -/
theorem claim7_mapping_counterexample :
    ∃ seg ∈ buildSegments gCross,
      seg.cluePos = ((0 : Int), (0 : Int)) ∧ seg.clue.answer ≠ "" ∧
      (answerLetters seg.clue.answer).length = 1 ∧ (1 : Nat) < seg.cells.length ∧
      seg.cells.get? 1 = some ((0 : Int), (2 : Int)) ∧
      ((mapExpected gCross (buildSegments gCross)) 0 2).expected ≠ none := by
  decide

/-- C7 (amended): the mapper resets every expectedLetter and then performs
the per-segment assignments in order, the last assignment to a cell
winning: a cell ends null exactly when no segment assigns it — in
particular every run index in [L, R) receives nothing from its own segment
and stays null unless a crossing segment assigns the cell; an answerless
segment assigns nothing; every assignment pairs cell index i with answer
character i for i below both the run length and the stripped answer length
(so characters beyond the run are dropped). -/
theorem claim7_mapping_amended :
    (∀ (g : Grid) (segs : List Segment) (p : Pos),
        ((mapExpected g segs) p.1 p.2).expected = lastAssign segs p) ∧
    (∀ (g : Grid) (segs : List Segment) (p : Pos),
        (∀ s ∈ segs, segAssigns s p = none) →
        ((mapExpected g segs) p.1 p.2).expected = none) ∧
    (∀ (seg : Segment) (p : Pos), seg.clue.answer = "" → segAssigns seg p = none) ∧
    (∀ (seg : Segment) (p : Pos) (ch : Char), segAssigns seg p = some ch →
        ∃ i, seg.cells.get? i = some p ∧
          (answerLetters seg.clue.answer).get? i = some ch) ∧
    (∀ (g : Grid) (segs : List Segment) (seg : Segment), seg ∈ segs →
        ∀ (p : Pos) (ch : Char), segAssigns seg p = some ch →
        (∀ s ∈ segs, s ≠ seg → segAssigns s p = none) →
        ((mapExpected g segs) p.1 p.2).expected = some ch) := by
  refine ⟨fun g segs p => mapExpected_expected g segs p, ?_, ?_, ?_, ?_⟩
  · intro g segs p h
    rw [mapExpected_expected, lastAssign]
    exact findSome?_eq_none_of_all fun s hs => h s (List.mem_reverse.mp hs)
  · intro seg p ha
    rw [segAssigns, if_pos ha]
  · intro seg p ch h
    exact (segAssigns_some h).2
  · intro g segs seg hmem p ch hch hothers
    rw [mapExpected_expected, lastAssign]
    apply findSome?_eq_some_of_all
    · intro s hs
      by_cases hse : s = seg
      · rw [hse, hch]
        exact Or.inr rfl
      · exact Or.inl (hothers s (List.mem_reverse.mp hs) hse)
    · exact ⟨seg, List.mem_reverse.mpr hmem, hch⟩

/-- C7 witness: in the crossing mapper fixture the head cell (0,1) of the
first segment, assigned by that segment alone, carries the answer letter
A after the mapper. -/
theorem claim7_mapping_witness :
    ((mapExpected gCross (buildSegments gCross)) 0 1).expected = some 'A' :=
  claim7_mapping_amended.2.2.2.2 gCross (buildSegments gCross)
    ((buildSegments gCross).headD dummySeg) (by decide) ((0 : Int), (1 : Int)) 'A'
    (by decide) (by decide)

theorem bestView_spec (dayRows : List HighscoreRow)
    (hpos : ∀ x ∈ dayRows, 0 < x.time_ms) :
    (∀ x ∈ sortByTime ((dayRows.foldl insertBest []).map Prod.snd), x ∈ dayRows) ∧
    List.Sorted (fun a b => a.time_ms ≤ b.time_ms)
      (sortByTime ((dayRows.foldl insertBest []).map Prod.snd)) ∧
    ((sortByTime ((dayRows.foldl insertBest []).map Prod.snd)).map
      fun x => nickKey x.nickname).Nodup ∧
    (∀ r ∈ dayRows, ∃ s ∈ sortByTime ((dayRows.foldl insertBest []).map Prod.snd),
      nickKey s.nickname = nickKey r.nickname ∧ s.time_ms ≤ r.time_ms) := by
  obtain ⟨fprov, fnd, fmin, frow⟩ :=
    bestFold_spec dayRows [] hpos (fun kv h => absurd h (List.not_mem_nil kv)) (by simp)
  have hbase_day : ∀ x ∈ (dayRows.foldl insertBest []).map Prod.snd, x ∈ dayRows := by
    intro x hx
    rcases List.mem_map.mp hx with ⟨kv, hkv, rfl⟩
    rcases fprov kv hkv with ⟨-, -, h | h⟩
    · exact h
    · exact absurd h (List.not_mem_nil kv)
  refine ⟨?_, ?_, ?_, ?_⟩
  · intro x hx
    exact hbase_day x (mem_sortByTime.mp hx)
  · have hs : List.Sorted hsLE (sortByTime ((dayRows.foldl insertBest []).map Prod.snd)) :=
      List.sorted_insertionSort hsLE _
    refine hs.imp_of_mem ?_
    intro a b ha hb hab
    have hpb := hpos b (hbase_day b (mem_sortByTime.mp hb))
    rcases (hsLE_iff a b).mp hab with h | ⟨-, h⟩
    · exact absurd h (Nat.pos_iff_ne_zero.mp hpb)
    · exact h
  · have hperm := (List.perm_insertionSort hsLE
      ((dayRows.foldl insertBest []).map Prod.snd)).map fun x => nickKey x.nickname
    apply (hperm.nodup_iff).mpr
    have heq : ((dayRows.foldl insertBest []).map Prod.snd).map (fun x => nickKey x.nickname) =
        (dayRows.foldl insertBest []).map Prod.fst := by
      rw [List.map_map]
      apply List.map_congr_left
      intro kv hkv
      simp only [Function.comp_apply]
      exact ((fprov kv hkv).1).symm
    rw [heq]
    exact fnd
  · intro r hrd
    rcases frow r hrd with ⟨kv, hkv, hk, ht⟩
    refine ⟨kv.2, mem_sortByTime.mpr (List.mem_map.mpr ⟨kv, hkv, rfl⟩), ?_, ht⟩
    rw [← (fprov kv hkv).1]
    exact hk

/-- C8: in best-per-nickname mode the aggregator returns only rows of the
reference date with strictly positive times (reload sentinels excluded),
sorted ascending by time, with at most one row per normalized nickname,
each surviving nickname represented by a row no slower than any of its
surviving rows; on the example rows Ann/5000, Ann/3000, Bo/0 of the
reference date it returns exactly [Ann/3000]. -/
theorem claim8_best_per_nickname :
    ∀ (rows : List HighscoreRow) (dateStr todayStr : String),
      (∀ x ∈ filteredHighscores rows .best dateStr todayStr,
         byDate x dateStr = true ∧ 0 < x.time_ms) ∧
      List.Sorted (fun a b => a.time_ms ≤ b.time_ms)
        (filteredHighscores rows .best dateStr todayStr) ∧
      ((filteredHighscores rows .best dateStr todayStr).map
        fun x => nickKey x.nickname).Nodup ∧
      (∀ r ∈ rows, byDate r dateStr = true → 0 < r.time_ms →
        ∃ s ∈ filteredHighscores rows .best dateStr todayStr,
          nickKey s.nickname = nickKey r.nickname ∧ s.time_ms ≤ r.time_ms) ∧
      filteredHighscores hsExampleRows .best hsExampleDate hsExampleToday = [hsAnn3000] := by
  intro rows dateStr todayStr
  have hunf : filteredHighscores rows .best dateStr todayStr =
      sortByTime (((((rows.filter fun r => byDate r dateStr).filter
        fun r => decide (0 < r.time_ms))).foldl insertBest []).map Prod.snd) := rfl
  have hpos : ∀ x ∈ (rows.filter fun r => byDate r dateStr).filter
      fun r => decide (0 < r.time_ms), 0 < x.time_ms :=
    fun x hx => of_decide_eq_true (List.mem_filter.mp hx).2
  obtain ⟨b1, b2, b3, b4⟩ := bestView_spec _ hpos
  refine ⟨?_, ?_, ?_, ?_, by decide⟩
  · intro x hx
    rw [hunf] at hx
    have hxd := b1 x hx
    exact ⟨(List.mem_filter.mp (List.mem_filter.mp hxd).1).2, hpos x hxd⟩
  · rw [hunf]
    exact b2
  · rw [hunf]
    exact b3
  · intro r hr hd hp
    have hrd : r ∈ (rows.filter fun r => byDate r dateStr).filter
        fun r => decide (0 < r.time_ms) :=
      List.mem_filter.mpr ⟨List.mem_filter.mpr ⟨hr, hd⟩, decide_eq_true hp⟩
    rcases b4 r hrd with ⟨s, hs, hkey, ht⟩
    refine ⟨s, ?_, hkey, ht⟩
    rw [hunf]
    exact hs

/-- C8 witness: on the example rows, the Ann group is represented by a row
at most as slow as Ann/5000 (namely Ann/3000). -/
theorem claim8_best_witness :
    ∃ s ∈ filteredHighscores hsExampleRows .best hsExampleDate hsExampleToday,
      nickKey s.nickname = nickKey hsAnn5000.nickname ∧ s.time_ms ≤ hsAnn5000.time_ms :=
  (claim8_best_per_nickname hsExampleRows hsExampleDate hsExampleToday).2.2.2.1
    hsAnn5000 (by decide) (by decide) (by decide)

/-- C9: the effective page index is the requested one clamped into the
valid page range (at most ceil(count/size)-1 on a non-empty list, identity
when already in range), the page slice is a total function whose length is
the clamped window; with 23 rows there are 3 pages of 10, 10 and 3 rows
and requesting page 5 yields page 2; the empty list yields the empty page
without error. -/
theorem claim9_pagination :
    ∀ (l : List HighscoreRow) (p : Nat),
      currentPageOf p l.length < totalPages l.length ∧
      (0 < l.length →
        currentPageOf p l.length ≤ (l.length + PAGE_SIZE - 1) / PAGE_SIZE - 1) ∧
      (p < totalPages l.length → currentPageOf p l.length = p) ∧
      (pageHighscores l p).length =
        min PAGE_SIZE (l.length - currentPageOf p l.length * PAGE_SIZE) ∧
      (l.length = 23 →
        totalPages l.length = 3 ∧
        (pageHighscores l 0).length = 10 ∧
        (pageHighscores l 1).length = 10 ∧
        (pageHighscores l 2).length = 3 ∧
        currentPageOf 5 l.length = 2 ∧
        pageHighscores l 5 = pageHighscores l 2) ∧
      pageHighscores ([] : List HighscoreRow) p = [] := by
  intro l p
  have hlen : ∀ q : Nat, (pageHighscores l q).length =
      min PAGE_SIZE (l.length - currentPageOf q l.length * PAGE_SIZE) := by
    intro q
    unfold pageHighscores
    rw [List.length_take, List.length_drop]
  refine ⟨?_, ?_, ?_, hlen p, ?_, ?_⟩
  · unfold currentPageOf totalPages
    omega
  · intro h
    unfold currentPageOf totalPages PAGE_SIZE
    omega
  · intro h
    unfold currentPageOf
    exact Nat.min_eq_left (by omega)
  · intro h23
    have h5 : currentPageOf 5 l.length = 2 := by
      rw [h23]
      decide
    have h2 : currentPageOf 2 l.length = 2 := by
      rw [h23]
      decide
    refine ⟨?_, ?_, ?_, ?_, h5, ?_⟩
    · rw [h23]
      decide
    · rw [hlen, h23]
      norm_num [currentPageOf, totalPages, PAGE_SIZE]
    · rw [hlen, h23]
      norm_num [currentPageOf, totalPages, PAGE_SIZE]
    · rw [hlen, h23]
      norm_num [currentPageOf, totalPages, PAGE_SIZE]
    · unfold pageHighscores
      rw [h5, h2]
  · simp [pageHighscores]

/-- C9 witness: on 23 concrete rows there are 3 pages and page 5 clamps to
page 2. -/
theorem claim9_pagination_witness :
    totalPages (List.replicate 23 hsFiller).length = 3 ∧
    currentPageOf 5 (List.replicate 23 hsFiller).length = 2 ∧
    pageHighscores (List.replicate 23 hsFiller) 5 =
      pageHighscores (List.replicate 23 hsFiller) 2 := by
  have h := (claim9_pagination (List.replicate 23 hsFiller) 5).2.2.2.2.1 (by simp)
  exact ⟨h.1, h.2.2.2.2.1, h.2.2.2.2.2⟩

/-- C10: on the completion fixture the puzzle-complete gate is true and
fires the win trigger although the cell (0,2), which has a null
expectedLetter, still holds a stray letter and is flagged by the
evaluation pass; the segment covering that cell is accordingly not in the
solved-segment-id set, which does require null-expectation cells to be
empty. -/
theorem claim10_completion_ignores_stray :
    allCorrect gComplete = true ∧
    (gComplete 0 2).expected = none ∧
    (gComplete 0 2).letter = some 'Z' ∧
    ((0 : Int), (2 : Int)) ∈ setIncorrectCells gComplete (buildSegments gComplete) ∅ ∧
    (∃ seg ∈ buildSegments gComplete,
      ((0 : Int), (2 : Int)) ∈ seg.cells ∧
      seg.id ∉ solvedSegIds gComplete (buildSegments gComplete)) ∧
    winTrigger (allCorrect gComplete) false = true := by
  decide

end Crossword
